import Mathlib

/-! jira-replicator: the replication daemon, its transfer loop and the rate-limit decoder.

A shallow embedding of `src/replicator.go`, `src/client/backup.go` and the parts of
`src/client/client.go` that the orchestration depends on.

* Texts are lists of characters (`List Char`); Go strings that only carry a status or a
  message are `String`.
* Instants and durations are integer nanosecond counts (`Int`), as `time.Time` and
  `time.Duration` are; unsigned 64-bit accumulators are `Nat` with the range checks of the
  library written out.
* The outside world (HTTP replies, the object store, the archive stream) is a record of
  answers, and every call made to it is appended to a trace.
-/

namespace JiraReplicator

/-! ## Package `time` as far as `FromResponse` uses it -/

/-- The constant `time.Second`.  A `time.Duration` is a signed nanosecond count, and an instant
(`time.Time`) is counted in nanoseconds since the zero time of the package; both are `Int`. -/
def Second : Int := 1000000000

/-- The constant `time.Minute`. -/
def Minute : Int := 60 * Second

/-- The constant `time.Hour`. -/
def Hour : Int := 60 * Minute

/-- The method `Time.Round(d)`: the nearest multiple of `d` since the zero time, halfway values
rounding up; `t` itself when `d <= 0`.  The library computes `r = t mod d` (made non-negative
for instants before the zero time) and returns `t - r` when `r + r < d`, else `t + (d - r)`. -/
def Round (t : Int) (d : Int) : Int :=
  if d ≤ 0 then t
  else
    let r := t % d
    if r + r < d then t - r else t + (d - r)

/-- The method `Time.Sub`: the difference, kept within the range of a `Duration`. -/
def Sub (t u : Int) : Int :=
  let d := t - u
  if d > 2 ^ 63 - 1 then 2 ^ 63 - 1 else if d < -(2 ^ 63) then -(2 ^ 63) else d

/-- The table `unitMap` of package `time`. -/
def unitMap (u : List Char) : Option Nat :=
  if u = ['n', 's'] then some 1
  else if u = ['u', 's'] then some 1000
  else if u = ['µ', 's'] then some 1000
  else if u = ['μ', 's'] then some 1000
  else if u = ['m', 's'] then some 1000000
  else if u = ['s'] then some 1000000000
  else if u = ['m'] then some 60000000000
  else if u = ['h'] then some 3600000000000
  else none

/-- The helper `leadingInt` of package `time`: the value of the leading decimal digits added to
the accumulator `x`, and the rest of the text; `none` is its overflow error. -/
def leadingInt : Nat → List Char → Option (Nat × List Char)
  | x, [] => some (x, [])
  | x, c :: s =>
    if c.isDigit then
      if x > 2 ^ 63 / 10 then none
      else
        let y := x * 10 + (c.toNat - 48)
        if y > 2 ^ 63 then none else leadingInt y s
    else some (x, c :: s)

/-- The helper `leadingFraction` of package `time`: the digits after the decimal point as an
integer, the number `k` of digits taken (the library's `scale` is `10 ^ k`), and the rest. -/
def leadingFraction : Nat → Nat → Bool → List Char → Nat × Nat × List Char
  | x, k, _, [] => (x, k, [])
  | x, k, overflow, c :: s =>
    if c.isDigit then
      if overflow then leadingFraction x k true s
      else if x > (2 ^ 63 - 1) / 10 then leadingFraction x k true s
      else
        let y := x * 10 + (c.toNat - 48)
        if y > 2 ^ 63 then leadingFraction x k true s else leadingFraction y (k + 1) false s
    else (x, k, c :: s)

/-- The characters of a unit: everything up to the next `.` or digit. -/
def unitChar (c : Char) : Bool := !(c = '.' || c.isDigit)

/-- The step `(\.[0-9]*)?` of `time.ParseDuration` on the text after the integer: the
fraction digits as an integer `f`, their number `k`, the rest, and whether a digit was taken
(`post`). -/
def fractionPart (s1 : List Char) : Nat × Nat × List Char × Bool :=
  match s1 with
  | [] => (0, 0, [], false)
  | c :: s2 =>
    if c = '.' then
      let r := leadingFraction 0 0 false s2
      (r.1, r.2.1, r.2.2, decide (s2.length ≠ r.2.2.length))
    else (0, 0, c :: s2, false)

/-- The step of `time.ParseDuration` that takes the unit and scales the number: the
nanoseconds of the term and the rest of the text, `none` for a missing or unknown unit and
for overflow.  `frac f k unit` stands for the floating-point product
`uint64(float64(f) * (float64(unit) / scale))` with `scale = 10 ^ k`. -/
def unitPart (frac : Nat → Nat → Nat → Nat) (v f k : Nat) (s3 : List Char) :
    Option (Nat × List Char) :=
  let u := s3.takeWhile unitChar
  let s4 := s3.dropWhile unitChar
  if u = [] then none
  else
    match unitMap u with
    | none => none
    | some unit =>
      if v > 2 ^ 63 / unit then none
      else
        let v1 := v * unit
        if 0 < f then
          let v2 := (v1 + frac f k unit) % 2 ^ 64
          if v2 > 2 ^ 63 then none else some (v2, s4)
        else some (v1, s4)

/-- One round of the loop of `time.ParseDuration`: a number, an optional fraction and a unit.
Returns the nanoseconds of this term and the rest of the text, `none` for the library's
errors. -/
def parseTerm (frac : Nat → Nat → Nat → Nat) (s : List Char) : Option (Nat × List Char) :=
  match s with
  | [] => none
  | c :: _ =>
    if !(c = '.' || c.isDigit) then none
    else
      match leadingInt 0 s with
      | none => none
      | some (v, s1) =>
        let pre := decide (s.length ≠ s1.length)
        let fr := fractionPart s1
        let post := fr.2.2.2
        if !pre && !post then none
        else unitPart frac v fr.1 fr.2.1 fr.2.2.1

/-- The loop `for s != ""` of `time.ParseDuration`, summing the terms into `d`.  Every round
removes at least the unit, so `fuel = len(s)` rounds always suffice. -/
def parseTerms (frac : Nat → Nat → Nat → Nat) : Nat → Nat → List Char → Option Nat
  | _, d, [] => some d
  | 0, _, _ :: _ => none
  | fuel + 1, d, c :: s =>
    match parseTerm frac (c :: s) with
    | none => none
    | some (v, rest) =>
      let d1 := (d + v) % 2 ^ 64
      if d1 > 2 ^ 63 then none else parseTerms frac fuel d1 rest

/-- The function `time.ParseDuration`: `[-+]?([0-9]*(\.[0-9]*)?[a-z]+)+`; `none` is its error. -/
def ParseDuration (frac : Nat → Nat → Nat → Nat) (orig : List Char) : Option Int :=
  let neg := decide (orig.head? = some '-')
  let s := if orig.head? = some '-' ∨ orig.head? = some '+' then orig.tail else orig
  if s = ['0'] then some 0
  else if s = [] then none
  else
    match parseTerms frac s.length 0 s with
    | none => none
    | some d =>
      if neg then some (-(d : Int))
      else if d > 2 ^ 63 - 1 then none
      else some (d : Int)

/-! ## Package `regexp` for the one expression `((\d+)h)?((\d+)m)?` -/

/-- Length of a match of `(\d+)c` at the start of `s`: the longest run of ASCII digits, which
must be non-empty, then the character `c`. -/
def digitsThen (c : Char) (s : List Char) : Option Nat :=
  let n := (s.takeWhile Char.isDigit).length
  if 0 < n ∧ (s.dropWhile Char.isDigit).head? = some c then some (n + 1) else none

/-- Length of the leftmost-first match of `((\d+)h)?((\d+)m)?` at the start of `s`: each
optional group is taken when it can match, and the empty match is always possible. -/
def matchLen (s : List Char) : Nat :=
  match digitsThen 'h' s with
  | some a =>
    match digitsThen 'm' (s.drop a) with
    | some b => a + b
    | none => a
  | none =>
    match digitsThen 'm' s with
    | some b => b
    | none => 0

/-- The loop of `Regexp.allMatches` for this expression, on the text from `pos` on.  The
expression matches the empty text everywhere, so every search finds a match that starts at
`pos`.  `n` is what remains of the match budget (`i < n`) and `abut` says that the previous
match ended at `pos`: an empty match there is not delivered.  After an empty match the
position moves one character on, or past the end. -/
def allMatches : Nat → List Char → Bool → List (List Char)
  | 0, _, _ => []
  | n + 1, s, abut =>
    let m := matchLen s
    if m = 0 then
      let out : List (List Char) := if abut then [] else [[]]
      match s with
      | [] => out
      | _ :: rest => out ++ allMatches n rest false
    else s.take m :: allMatches n (s.drop m) true

/-- The call `exp.FindAllString(text, -1)`: a negative count becomes `len(text) + 1`, which no
run of the loop can use up, since every round moves at least one character on. -/
def FindAllString (text : List Char) : List (List Char) :=
  allMatches (text.length + 1) text false

/-- The call `strings.Join(matches, "")`. -/
def Join (parts : List (List Char)) : List Char := parts.flatten

/-! ## `src/client/backup.go` -/

/-- The error value `BackupRateExceeded`. -/
structure BackupRateExceeded where
  retryAt : Int
  deriving DecidableEq, Repr

/-- The method `RetryIn`, with `now` the value of `time.Now()`. -/
def BackupRateExceeded.RetryIn (e : BackupRateExceeded) (now : Int) : Int :=
  Sub e.retryAt now

/-- The method `RetryAt`. -/
def BackupRateExceeded.RetryAt (e : BackupRateExceeded) : Int := e.retryAt

/-- The method `FromResponse`, with `now` the value of `time.Now()`. -/
def FromResponse (frac : Nat → Nat → Nat → Nat) (now : Int) (text : List Char) :
    BackupRateExceeded :=
  let matches_ := FindAllString text
  let durationStr := Join matches_
  match ParseDuration frac durationStr with
  | some dur => { retryAt := Round now Minute + dur }
  | none => { retryAt := now }

/-! ## Errors, replies and the trace -/

/-- Go `error` values that the orchestration tells apart: the two sentinels of package `io`,
the typed rate-limit error, and any other error by its message. -/
inductive GoError
  | EOF
  | ErrUnexpectedEOF
  | rateExceeded (e : BackupRateExceeded)
  | errorString (msg : String)
  deriving DecidableEq, Repr

/-- The struct `BackupStatus` of `client.go`. -/
structure BackupStatus where
  Status : String
  Progress : Int
  DownloadPath : String
  deriving DecidableEq, Repr

/-- The zero value `BackupStatus{}`. -/
def BackupStatus.zero : BackupStatus := { Status := "", Progress := 0, DownloadPath := "" }

abbrev Byte := UInt8

/-- The struct `s3.CompletedPart`: the part number and the ETag pointer of the part result. -/
structure CompletedPart where
  PartNumber : Nat
  ETag : Option String
  deriving DecidableEq, Repr

/-- Calls made to the outside world, and lines written to the console or the logger, in the
order in which the program makes them. -/
inductive Event
  | print (msg : String)
  | createBackup (err : Option GoError)
  | sleep (d : Int)
  | tick
  | getBackupStatus (status : BackupStatus) (err : Option GoError)
  | readInConfig (err : Option GoError)
  | download (err : Option GoError)
  | createMultipartUpload (err : Option GoError)
  | readFull (bytesRead : Nat) (err : Option GoError)
  | uploadPart (partNumber : Nat) (body : List Byte) (err : Option GoError)
  | completeMultipartUpload (parts : List CompletedPart) (err : Option GoError)
  deriving DecidableEq, Repr

/-- How a call of a Go function ends: it returns its `error` result, it panics, or it is still
inside a loop when the fuel of the model is used up. -/
inductive Outcome
  | returned (err : Option GoError)
  | panicked
  | running
  deriving DecidableEq, Repr

/-! ## `src/client/client.go` -/

/-- The two HTTP exchanges of `GetBackupStatus` as `makeRequest` reports them: for
`lastTaskId` the transport error or the status code and status line, for `getProgress` the
transport error or what `json.Unmarshal` makes of the body (the struct as far as it was
filled, and its error). -/
structure StatusExchange where
  lastTaskId : Option GoError × Nat × String
  getProgress : Option GoError × BackupStatus × Option GoError

/-- The method `Client.GetBackupStatus`. -/
def GetBackupStatus (x : StatusExchange) : BackupStatus × Option GoError :=
  match x.lastTaskId with
  | (some err, _, _) => (BackupStatus.zero, some err)
  | (none, statusCode, status) =>
    if statusCode ≥ 400 then (BackupStatus.zero, some (GoError.errorString status))
    else
      match x.getProgress with
      | (some err, _, _) => (BackupStatus.zero, some err)
      | (none, b, err) => (b, err)

/-- Result of `strconv.ParseUint(s, 10, 64)`: the value, or one of its two errors. -/
inductive UintResult
  | value (n : Nat)
  | badDigit
  | outOfRange
  deriving DecidableEq, Repr

/-- The digit loop of `strconv.ParseUint` in base 10 with 64 bits. -/
def parseUintLoop : Nat → List Char → UintResult
  | n, [] => UintResult.value n
  | n, c :: s =>
    if c.isDigit then
      if n ≥ (2 ^ 64 - 1) / 10 + 1 then UintResult.outOfRange
      else
        let n1 := n * 10 + (c.toNat - 48)
        if n1 > 2 ^ 64 - 1 then UintResult.outOfRange else parseUintLoop n1 s
    else UintResult.badDigit

/-- The value returned by `strconv.ParseInt(s, 10, 64)`, its error dropped as in
`length, _ := strconv.ParseInt(...)`: 0 for a text that is not a number, the nearest bound
for a number out of range. -/
def ParseInt (s : List Char) : Int :=
  match s with
  | [] => 0
  | c :: rest =>
    let neg := decide (c = '-')
    let digits := if c = '+' ∨ c = '-' then rest else s
    let un : Option Nat :=
      match digits with
      | [] => none
      | _ :: _ =>
        match parseUintLoop 0 digits with
        | UintResult.value n => some n
        | UintResult.badDigit => none
        | UintResult.outOfRange => some (2 ^ 64 - 1)
    match un with
    | none => 0
    | some n =>
      if !neg && decide (n ≥ 2 ^ 63) then 2 ^ 63 - 1
      else if neg && decide (n > 2 ^ 63) then -(2 ^ 63)
      else if neg then -(n : Int) else (n : Int)

/-- A response body as a reader: the bytes it still holds and the error it gives once they
are used up (`EOF` for a clean end). -/
structure Body where
  data : List Byte
  term : GoError
  deriving DecidableEq, Repr

/-- What `DownloadBackup` meets: the status exchange, whether `url.Parse` accepts the download
path, and the reply to the download request (transport error, `Content-Length` header,
body). -/
structure DownloadExchange where
  status : StatusExchange
  urlParses : Bool
  reply : Option GoError × List Char × Body

/-- Result of `Client.DownloadBackup`: the reader and length of `(res.Body, int(length), nil)`,
the error of `(nil, 0, err)`, or a panic (the result of `url.Parse` is used without looking at
its error). -/
inductive DownloadResult
  | ok (reader : Body) (length : Int)
  | failed (err : GoError)
  | panicked
  deriving DecidableEq, Repr

/-- The method `Client.DownloadBackup`, with the events of its calls. -/
def DownloadBackup (x : DownloadExchange) : List Event × DownloadResult :=
  let r := GetBackupStatus x.status
  let ev := [Event.getBackupStatus r.1 r.2]
  match r.2 with
  | some err => (ev, DownloadResult.failed err)
  | none =>
    if r.1.Status ≠ "Success" then (ev, DownloadResult.failed (GoError.errorString r.1.Status))
    else if !x.urlParses then (ev, DownloadResult.panicked)
    else
      match x.reply with
      | (some err, _, _) => (ev ++ [Event.download (some err)], DownloadResult.failed err)
      | (none, contentLength, body) =>
        (ev ++ [Event.download none], DownloadResult.ok body (ParseInt contentLength))

/-! ## `src/replicator.go`: the transfer -/

/-- The constant `partSize = 64 * 1<<20` (`*` and `<<` associate to the left in Go): 64 MiB.
The buffer of line 284 has this size; the comment `16MiB` on that line is out of date. -/
def partSize : Nat := (64 * 1) <<< 20

/-- The call `io.ReadFull(reader, store)` with `len(store) = n`: the bytes read, the error, and
the reader afterwards.  A full buffer comes without error; a short read gives the error of
the reader, a clean end after at least one byte being reported as `ErrUnexpectedEOF`. -/
def ReadFull (reader : Body) (n : Nat) : List Byte × Option GoError × Body :=
  if n ≤ reader.data.length then
    (reader.data.take n, none, { reader with data := reader.data.drop n })
  else
    (reader.data,
      some (if reader.term = GoError.EOF ∧ reader.data ≠ [] then GoError.ErrUnexpectedEOF
        else reader.term),
      { reader with data := [] })

/-- The object store as the transfer sees it: the error of `CreateMultipartUpload`, the ETag
pointer and error of `UploadPart` for a part number and body, and the ETag pointer and error
of `CompleteMultipartUpload` for a part list. -/
structure S3 where
  createMultipartUpload : Option GoError
  uploadPart : Nat → List Byte → Option String × Option GoError
  completeMultipartUpload : List CompletedPart → Option String × Option GoError

/-- How the part loop of `backupToS3` ends: it falls out of the loop (guard false or `break`)
with the part list, it returns an error, or the fuel of the model is used up. -/
inductive LoopExit
  | finished (partMap : List CompletedPart)
  | failed (err : GoError)
  | running
  deriving DecidableEq, Repr

/-- The loop `for partNumber := int64(1); i < size; partNumber++` of `backupToS3` with part
size `P`.  The counter `i` is set to 0 before the loop and never assigned again, so the
guard is `0 < size`.  The progress bar is display only and is left out. -/
def transferLoop (P : Nat) (s3 : S3) (size : Int) :
    Nat → Nat → Body → List CompletedPart → List Event × LoopExit
  | 0, _, _, _ => ([], LoopExit.running)
  | fuel + 1, partNumber, reader, partMap =>
    if ¬ (0 < size) then ([], LoopExit.finished partMap)
    else
      let r := ReadFull reader P
      let store := r.1
      let err := r.2.1
      let ev := Event.readFull store.length err
      match (if err ≠ some GoError.ErrUnexpectedEOF ∧ err ≠ some GoError.EOF then err else none) with
      | some rerr => ([ev, Event.print "Unable to read part:"], LoopExit.failed rerr)
      | none =>
        if err = some GoError.EOF ∧ store.length = 0 then ([ev], LoopExit.finished partMap)
        else
          let up := s3.uploadPart partNumber store
          let evUp := Event.uploadPart partNumber store up.2
          match up.2 with
          | some uerr => ([ev, evUp, Event.print "Unable to upload part:"], LoopExit.failed uerr)
          | none =>
            let rest := transferLoop P s3 size fuel (partNumber + 1) r.2.2
              (partMap ++ [{ PartNumber := partNumber, ETag := up.1 }])
            (ev :: evUp :: rest.1, rest.2)

/-- What one call of `backupToS3` meets. -/
structure Env where
  readInConfig : Option GoError
  backup : DownloadExchange
  s3 : S3

/-- The part of `backupToS3` after `DownloadBackup` has succeeded, lines 235 to 352: from the
creation of the multipart upload to the end, for a reader and the declared size.  The AWS
session is taken to be created without a panic.  Every round of the part loop that goes on
has read at least one byte, so `len + 1` rounds of fuel suffice for a positive part size.
The last line prints `*completion.ETag`: it panics when the output carries no ETag. -/
def uploadTo (P : Nat) (s3 : S3) (reader : Body) (size : Int) : List Event × Outcome :=
  match s3.createMultipartUpload with
  | some err =>
    ([Event.createMultipartUpload (some err), Event.print "Unable to create multi-part upload:"],
      Outcome.returned (some err))
  | none =>
    let loop := transferLoop P s3 size (reader.data.length + 1) 1 reader []
    let ev := Event.createMultipartUpload none :: loop.1
    match loop.2 with
    | LoopExit.running => (ev, Outcome.running)
    | LoopExit.failed err => (ev, Outcome.returned (some err))
    | LoopExit.finished partMap =>
      let c := s3.completeMultipartUpload partMap
      let ev1 := ev ++ [Event.print "Completing Upload.", Event.completeMultipartUpload partMap c.2]
      let ev2 := if c.2 ≠ none then ev1 ++ [Event.print "Unable to complete upload:"] else ev1
      match c.1 with
      | none => (ev2, Outcome.panicked)
      | some _ => (ev2 ++ [Event.print "Completed upload:"], Outcome.returned none)

/-- The command `backupToS3`: the events of its calls and how it ends. -/
def backupToS3 (env : Env) : List Event × Outcome :=
  match env.readInConfig with
  | some err =>
    ([Event.readInConfig (some err), Event.print "Unable to read configuration file."],
      Outcome.returned none)
  | none =>
    let d := DownloadBackup env.backup
    let ev := Event.readInConfig none :: d.1
    match d.2 with
    | DownloadResult.panicked => (ev, Outcome.panicked)
    | DownloadResult.failed _ => (ev ++ [Event.print "Unable to get backup: "], Outcome.returned none)
    | DownloadResult.ok reader size =>
      let u := uploadTo partSize env.s3 reader size
      (ev ++ u.1, u.2)

/-! ## `src/replicator.go`: the daemon -/

/-- The command `makeBackup`: the call of `CreateBackup`, one line on the console for an
error, and the error handed back. -/
def makeBackup (res : Option GoError) : List Event × Option GoError :=
  match res with
  | none => ([Event.createBackup none], none)
  | some (GoError.rateExceeded _) =>
    ([Event.createBackup res, Event.print "Backup rate exceeded. Try again at:"], res)
  | some _ => ([Event.createBackup res, Event.print "Unable to create backup:"], res)

/-- The answers of the outside world to a run of the daemon: the result of the n-th call of
`CreateBackup`, the exchange behind the n-th status query of the poll loops, and what the
n-th call of `backupToS3` meets. -/
structure World where
  createBackup : Nat → Option GoError
  pollStatus : Nat → StatusExchange
  transfer : Nat → Env

/-- Where `replicate` stands: at the call of `makeBackup` (line 110), at the wait on the
ticker in the poll loop (line 132), at the call of `backupToS3` (line 148), or ended. -/
inductive Ctl
  | trigger
  | poll
  | transfer
  | returned (err : GoError)
  | panicked
  | running
  deriving DecidableEq, Repr

/-- State of a run of `replicate`: the control point, the clock (which moves in sleeps and in
waits on the ticker only), how many times each collaborator has been called, and the trace
so far. -/
structure State where
  ctl : Ctl
  clock : Int
  triggers : Nat
  polls : Nat
  transfers : Nat
  trace : List Event
  deriving DecidableEq, Repr

/-- The state in which `replicate` is entered at instant `now`. -/
def State.init (now : Int) : State :=
  { ctl := Ctl.trigger, clock := now, triggers := 0, polls := 0, transfers := 0, trace := [] }

/-- The call `time.Sleep(d)`: the event and the clock afterwards. -/
def sleepFor (st : State) (d : Int) : State :=
  { st with clock := st.clock + max d 0, trace := st.trace ++ [Event.sleep d] }

/-- The inner loop of lines 109 to 124 and line 127.  The `break` of line 123 is the last
statement of the loop body and is not guarded, so the body runs once. -/
def stepTrigger (w : World) (st : State) : State :=
  let m := makeBackup (w.createBackup st.triggers)
  let st1 := { st with triggers := st.triggers + 1, trace := st.trace ++ m.1 }
  match m.2 with
  | none =>
    { st1 with ctl := Ctl.poll, trace := st1.trace ++ [Event.print "Waiting for backup to be ready"] }
  | some (GoError.rateExceeded v) =>
    let st2 := { st1 with trace := st1.trace ++ [Event.print "Backup rate exceeded. Retrying in"] }
    let st3 := sleepFor st2 (v.RetryIn st2.clock)
    { st3 with ctl := Ctl.poll, trace := st3.trace ++ [Event.print "Waiting for backup to be ready"] }
  | some err =>
    { st1 with ctl := Ctl.returned err, trace := st1.trace ++ [Event.print "Couldn't make a backup."] }

/-- One round of the poll loop, lines 131 to 145. -/
def stepPoll (w : World) (st : State) : State :=
  let r := GetBackupStatus (w.pollStatus st.polls)
  let ev := [Event.tick, Event.print "Checking backup status", Event.getBackupStatus r.1 r.2]
  let ev1 := if r.2 ≠ none then ev ++ [Event.print "Unable to get backup status: "] else ev
  { st with
    ctl := if r.1.Status ≠ "InProgress" then Ctl.transfer else Ctl.poll
    clock := st.clock + 30 * Second
    polls := st.polls + 1
    trace := st.trace ++ ev1 }

/-- Lines 148 to 158: the transfer and what the daemon does with its result. -/
def stepTransfer (w : World) (st : State) : State :=
  let r := backupToS3 (w.transfer st.transfers)
  let st1 := { st with
    transfers := st.transfers + 1
    trace := st.trace ++ Event.print "Copying backup to S3" :: r.1 }
  match r.2 with
  | Outcome.panicked => { st1 with ctl := Ctl.panicked }
  | Outcome.running => { st1 with ctl := Ctl.running }
  | Outcome.returned (some _) =>
    { st1 with ctl := Ctl.trigger, trace := st1.trace ++ [Event.print "Unable to copy backup to S3"] }
  | Outcome.returned none =>
    let st2 := { st1 with trace := st1.trace ++
      [Event.print "Backup and copy to S3 completed. Took",
        Event.print "Starting a new backup in 48 hours at:"] }
    { sleepFor st2 (48 * Hour) with ctl := Ctl.trigger }

/-- One step of `replicate`, from one control point to the next; an ended run stays as it is. -/
def step (w : World) (st : State) : State :=
  match st.ctl with
  | Ctl.trigger => stepTrigger w st
  | Ctl.poll => stepPoll w st
  | Ctl.transfer => stepTransfer w st
  | _ => st

/-- The command `replicate`, run for `n` steps from the state `st`. -/
def replicate (w : World) : Nat → State → State
  | 0, st => st
  | n + 1, st => replicate w n (step w st)

/-! ## Notions used to state the properties, and the scenarios they are tried on -/

/-- Decimal value of a run of digits continuing the value `x`. -/
def decimalFrom (x : Nat) (ds : List Char) : Nat :=
  ds.foldl (fun a c => a * 10 + (c.toNat - 48)) x

/-- Decimal value of a run of digits. -/
def decimal (ds : List Char) : Nat := decimalFrom 0 ds

/-- Whether the text holds a digit directly followed by `h` or `m`. -/
def hasToken : List Char → Bool
  | c :: d :: rest => (c.isDigit && (d = 'h' || d = 'm')) || hasToken (d :: rest)
  | _ => false

/-- The text that `FromResponse` hands to `ParseDuration`. -/
def joined (s : List Char) : List Char := Join (FindAllString s)

/-- The tokens of an advisory text, read from left to right one character at a time: a token
is a whole run of digits directly followed by `h` or `m`.  `run` holds the digits read since
the last character that is not a digit. -/
def scanTokens : List Char → List Char → List (List Char × Char)
  | _, [] => []
  | run, c :: s =>
    if c.isDigit then scanTokens (run ++ [c]) s
    else if run ≠ [] ∧ (c = 'h' ∨ c = 'm') then (run, c) :: scanTokens [] s
    else scanTokens [] s

/-- The tokens of an advisory text: each `<digits>h` and `<digits>m` in it, in order. -/
def tokensOf (text : List Char) : List (List Char × Char) := scanTokens [] text

/-- The tokens written one after the other. -/
def tokensText : List (List Char × Char) → List Char
  | [] => []
  | t :: ts => t.1 ++ t.2 :: tokensText ts

/-- Nanoseconds that a token stands for. -/
def tokenNanos (t : List Char × Char) : Nat :=
  decimal t.1 * (if t.2 = 'h' then 3600000000000 else 60000000000)

/-- Nanoseconds that a list of tokens stands for: their sum. -/
def tokensNanos : List (List Char × Char) → Nat
  | [] => 0
  | t :: ts => tokenNanos t + tokensNanos ts

/-- The duration that an advisory text states: the sum of its tokens, in nanoseconds. -/
def advisedNanos (text : List Char) : Nat := tokensNanos (tokensOf text)

/-- A token as the scan produces it: digits, at least one, and the unit `h` or `m`. -/
def wellFormedToken (t : List Char × Char) : Prop :=
  t.1 ≠ [] ∧ (∀ c ∈ t.1, c.isDigit = true) ∧ (t.2 = 'h' ∨ t.2 = 'm')

/-- The instant `now` rounded up to a whole minute, as the specification words it. -/
def roundUpToMinute (now : Int) : Int := Minute * ((now + Minute - 1) / Minute)

/-- Part number and body length of the `UploadPart` calls of a trace, in order. -/
def uploads : List Event → List (Nat × Nat)
  | [] => []
  | Event.uploadPart k body _ :: rest => (k, body.length) :: uploads rest
  | _ :: rest => uploads rest

/-- Part lengths of a transfer of `L` bytes in parts of `P` bytes, as the specification gives
them: full parts, then the remainder when there is one. -/
def partLengths (P L : Nat) : List Nat :=
  List.replicate (L / P) P ++ (if L % P = 0 then [] else [L % P])

/-- Whether an event is a call of `CompleteMultipartUpload`. -/
def Event.isCompletion : Event → Bool
  | Event.completeMultipartUpload _ _ => true
  | _ => false

/-- Whether an event is a call of `UploadPart` that returned an error. -/
def Event.isFailedUpload : Event → Bool
  | Event.uploadPart _ _ (some _) => true
  | _ => false

/-- Whether an event is a call of `UploadPart`. -/
def Event.isUpload : Event → Bool
  | Event.uploadPart _ _ _ => true
  | _ => false

/-- Whether an event is a read from the archive stream. -/
def Event.isRead : Event → Bool
  | Event.readFull _ _ => true
  | _ => false

/-- Whether an event is a call of the trigger `CreateBackup`. -/
def Event.isTrigger : Event → Bool
  | Event.createBackup _ => true
  | _ => false

/-- Whether an event is a status query `GetBackupStatus`. -/
def Event.isStatusQuery : Event → Bool
  | Event.getBackupStatus _ _ => true
  | _ => false

/-- Number of calls of the trigger in a trace before its first status query. -/
def triggersBeforeFirstPoll (tr : List Event) : Nat :=
  ((tr.takeWhile (fun e => !e.isStatusQuery)).filter Event.isTrigger).length

/-- A status exchange that answers with the given status. -/
def statusReply (status : String) : StatusExchange :=
  { lastTaskId := (none, 200, "200 OK")
    getProgress := (none, { Status := status, Progress := 0, DownloadPath := "" }, none) }

/-- A status exchange whose first request fails in the transport. -/
def statusDown : StatusExchange :=
  { lastTaskId := (some (GoError.errorString "connection refused"), 0, "")
    getProgress := (none, BackupStatus.zero, none) }

/-- An object store that accepts every call. -/
def s3Accepting : S3 :=
  { createMultipartUpload := none
    uploadPart := fun _ _ => (some "etag", none)
    completeMultipartUpload := fun _ => (some "etag", none) }

/-- A call of `backupToS3` that meets a finished backup of one byte and an accepting store. -/
def envReady : Env :=
  { readInConfig := none
    backup :=
      { status := statusReply "Success"
        urlParses := true
        reply := (none, ['1'], { data := [7], term := GoError.EOF }) }
    s3 := s3Accepting }

/-- A world whose first trigger is rate limited until `retryAt = 5400 s` and whose later
triggers succeed; the backup is in progress at every poll. -/
def worldRateLimitedOnce : World :=
  { createBackup := fun n =>
      if n = 0 then some (GoError.rateExceeded { retryAt := 5400000000000 }) else none
    pollStatus := fun _ => statusReply "InProgress"
    transfer := fun _ => envReady }

/-- A world whose first status query fails in the transport. -/
def worldStatusDown : World :=
  { createBackup := fun _ => none
    pollStatus := fun n => if n = 0 then statusDown else statusReply "InProgress"
    transfer := fun _ => envReady }

/-- A call of `backupToS3` that finds the backup in the state `Failed`. -/
def envJobFailed : Env :=
  { envReady with backup := { envReady.backup with status := statusReply "Failed" } }

/-- A world whose backup job ends in the state `Failed`. -/
def worldJobFailed : World :=
  { createBackup := fun _ => none
    pollStatus := fun _ => statusReply "Failed"
    transfer := fun _ => envJobFailed }

/-- A call of `backupToS3` whose completion request fails, with no ETag in the output. -/
def envCompleteFails : Env :=
  { envReady with s3 := { s3Accepting with
      completeMultipartUpload := fun _ => (none, some (GoError.errorString "InternalError")) } }

/-- The same with an ETag in the output of the failed completion request. -/
def envCompleteFailsWithETag : Env :=
  { envReady with s3 := { s3Accepting with
      completeMultipartUpload := fun _ => (some "etag", some (GoError.errorString "InternalError")) } }

/-- A call of `backupToS3` that cannot create the multipart upload. -/
def envCreateFails : Env :=
  { envReady with s3 := { s3Accepting with
      createMultipartUpload := some (GoError.errorString "AccessDenied") } }

/-- A world whose backup is ready at the first poll and whose store refuses the upload. -/
def worldTransferFails : World :=
  { createBackup := fun _ => none
    pollStatus := fun _ => statusReply "Success"
    transfer := fun _ => envCreateFails }

/-- A call of `backupToS3` whose store refuses the first part. -/
def envUploadFails : Env :=
  { envReady with s3 := { s3Accepting with
      uploadPart := fun _ _ => (none, some (GoError.errorString "SlowDown")) } }

/-- An object store that refuses the second part and accepts everything else. -/
def s3RefusingSecondPart : S3 :=
  { s3Accepting with
    uploadPart := fun k _ =>
      if k = 2 then (none, some (GoError.errorString "SlowDown")) else (some "etag", none) }

/-- An archive of ten bytes. -/
def archiveTenBytes : Body :=
  { data := [0, 1, 2, 3, 4, 5, 6, 7, 8, 9], term := GoError.EOF }

/-- An archive of 150 MiB of zero bytes. -/
def archive150MiB : Body := { data := List.replicate 157286400 0, term := GoError.EOF }

/-! ## The rate-limit decoder (C2, C9) -/

theorem takeWhile_digits (D : List Char) (c : Char) (rest : List Char)
    (hD : ∀ x ∈ D, x.isDigit = true) (hc : c.isDigit = false) :
    (D ++ c :: rest).takeWhile Char.isDigit = D := by
  induction D with
  | nil => simp [List.takeWhile, hc]
  | cons x D ih =>
    have hx : x.isDigit = true := hD x (List.mem_cons_self _ _)
    rw [List.cons_append, List.takeWhile_cons, if_pos hx,
      ih (fun y hy => hD y (List.mem_cons_of_mem _ hy))]

theorem dropWhile_digits (D : List Char) (c : Char) (rest : List Char)
    (hD : ∀ x ∈ D, x.isDigit = true) (hc : c.isDigit = false) :
    (D ++ c :: rest).dropWhile Char.isDigit = c :: rest := by
  induction D with
  | nil => simp [List.dropWhile, hc]
  | cons x D ih =>
    have hx : x.isDigit = true := hD x (List.mem_cons_self _ _)
    rw [List.cons_append, List.dropWhile_cons, if_pos hx,
      ih (fun y hy => hD y (List.mem_cons_of_mem _ hy))]

theorem digitsThen_token (D : List Char) (c : Char) (rest : List Char)
    (hD : ∀ x ∈ D, x.isDigit = true) (hne : D ≠ []) (hc : c.isDigit = false) :
    digitsThen c (D ++ c :: rest) = some (D.length + 1) := by
  unfold digitsThen
  simp only [takeWhile_digits D c rest hD hc, dropWhile_digits D c rest hD hc]
  have : 0 < D.length := List.length_pos.mpr hne
  simp [this]

theorem digitsThen_other (D : List Char) (c d : Char) (rest : List Char)
    (hD : ∀ x ∈ D, x.isDigit = true) (hd : d.isDigit = false) (hcd : d ≠ c) :
    digitsThen c (D ++ d :: rest) = none := by
  unfold digitsThen
  simp only [takeWhile_digits D d rest hD hd, dropWhile_digits D d rest hD hd]
  simp [hcd]

theorem digitsThen_nondigit (c x : Char) (rest : List Char) (hx : x.isDigit = false) :
    digitsThen c (x :: rest) = none := by
  simp [digitsThen, List.takeWhile, hx]

theorem digitsThen_nil (c : Char) : digitsThen c [] = none := by
  simp [digitsThen]

theorem matchLen_nondigit (x : Char) (rest : List Char) (hx : x.isDigit = false) :
    matchLen (x :: rest) = 0 := by
  simp [matchLen, digitsThen_nondigit _ x rest hx]

theorem matchLen_nil : matchLen [] = 0 := by
  simp [matchLen, digitsThen_nil]

theorem Join_allMatches_abut (n : Nat) (s : List Char) :
    Join (allMatches n s true) = Join (allMatches n s false) := by
  cases n with
  | zero => rfl
  | succ n =>
    unfold allMatches
    cases s <;> simp [Join] <;> split <;> simp

theorem matchLen_pos_ne_nil (s : List Char) (h : matchLen s ≠ 0) : s ≠ [] := by
  intro hs
  exact h (hs ▸ matchLen_nil)

/-- The joined matches do not depend on the budget once it exceeds the length of the text,
nor on the abutting flag. -/
theorem Join_allMatches_fuel (n : Nat) : ∀ (m : Nat) (s : List Char) (b b' : Bool),
    s.length < n → s.length < m → Join (allMatches n s b) = Join (allMatches m s b') := by
  induction n with
  | zero => intro m s b b' h; omega
  | succ n ih =>
    intro m s b b' hn hm
    cases m with
    | zero => omega
    | succ m =>
      unfold allMatches
      by_cases h0 : matchLen s = 0
      · simp only [h0, if_true]
        cases s with
        | nil => cases b <;> cases b' <;> simp [Join]
        | cons c rest =>
          simp only [List.length_cons] at hn hm
          have := ih m rest false false (by omega) (by omega)
          simp only [Join] at this ⊢
          cases b <;> cases b' <;> simp [this]
      · simp only [h0, if_false]
        have hne := matchLen_pos_ne_nil s h0
        have hlen : 0 < s.length := List.length_pos.mpr hne
        have hd : (s.drop (matchLen s)).length < n := by
          rw [List.length_drop]; omega
        have hd' : (s.drop (matchLen s)).length < m := by
          rw [List.length_drop]; omega
        have := ih m (s.drop (matchLen s)) true true hd hd'
        simp only [Join, List.flatten_cons] at this ⊢
        rw [this]

theorem joined_nil : joined [] = [] := by
  simp [joined, FindAllString, allMatches, matchLen_nil, Join]

theorem joined_skip (c : Char) (rest : List Char) (h : matchLen (c :: rest) = 0) :
    joined (c :: rest) = joined rest := by
  unfold joined FindAllString
  rw [List.length_cons]
  conv_lhs => unfold allMatches
  simp only [h, if_true]
  simp [Join]

theorem joined_match (s : List Char) (h : matchLen s ≠ 0) :
    joined s = s.take (matchLen s) ++ joined (s.drop (matchLen s)) := by
  have hne := matchLen_pos_ne_nil s h
  have hlen : 0 < s.length := List.length_pos.mpr hne
  unfold joined FindAllString
  conv_lhs => unfold allMatches
  simp only [h, if_false]
  simp only [Join, List.flatten_cons]
  congr 1
  exact Join_allMatches_fuel _ _ _ _ _ (by rw [List.length_drop]; omega) (by omega)

theorem joined_nondigits (pre s : List Char) (hpre : ∀ x ∈ pre, x.isDigit = false) :
    joined (pre ++ s) = joined s := by
  induction pre with
  | nil => rfl
  | cons c pre ih =>
    rw [List.cons_append, joined_skip _ _ (matchLen_nondigit c _ (hpre c (List.mem_cons_self _ _)))]
    exact ih (fun y hy => hpre y (List.mem_cons_of_mem _ hy))

theorem isDigit_h : Char.isDigit 'h' = false := by decide

theorem isDigit_m : Char.isDigit 'm' = false := by decide

theorem head_nondigit (D : List Char) (hD : ∀ x ∈ D, x.isDigit = true) (hne : D ≠ [])
    (rest : List Char) : ∃ c t, D ++ rest = c :: t ∧ c.isDigit = true := by
  cases D with
  | nil => exact absurd rfl hne
  | cons c D => exact ⟨c, D ++ rest, rfl, hD c (List.mem_cons_self _ _)⟩

/-- A run of digits closed by `m` is one match. -/
theorem joined_minutes (D2 post : List Char) (hD2 : ∀ x ∈ D2, x.isDigit = true) (hne : D2 ≠ []) :
    joined (D2 ++ 'm' :: post) = D2 ++ 'm' :: joined post := by
  have hm : matchLen (D2 ++ 'm' :: post) = D2.length + 1 := by
    unfold matchLen
    rw [digitsThen_other D2 'h' 'm' post hD2 isDigit_m (by decide),
      digitsThen_token D2 'm' post hD2 hne isDigit_m]
  rw [joined_match _ (by rw [hm]; omega), hm]
  have e1 : (D2 ++ 'm' :: post).take (D2.length + 1) = D2 ++ ['m'] := by
    rw [show D2 ++ 'm' :: post = (D2 ++ ['m']) ++ post by simp]
    exact List.take_left' (by simp)
  have e2 : (D2 ++ 'm' :: post).drop (D2.length + 1) = post := by
    rw [show D2 ++ 'm' :: post = (D2 ++ ['m']) ++ post by simp]
    exact List.drop_left' (by simp)
  rw [e1, e2]; simp

theorem le_decimalFrom (D : List Char) : ∀ x : Nat, x ≤ decimalFrom x D := by
  induction D with
  | nil => intro x; exact Nat.le_refl _
  | cons c D ih =>
    intro x
    have := ih (x * 10 + (c.toNat - 48))
    simp only [decimalFrom, List.foldl_cons] at this ⊢
    omega

theorem leadingInt_digits (D : List Char) (rest : List Char)
    (hD : ∀ c ∈ D, c.isDigit = true)
    (hrest : ∀ c t, rest = c :: t → c.isDigit = false) :
    ∀ x : Nat, decimalFrom x D ≤ 2 ^ 63 → leadingInt x (D ++ rest) = some (decimalFrom x D, rest) := by
  induction D with
  | nil =>
    intro x _
    cases rest with
    | nil => rfl
    | cons c t => simp [leadingInt, hrest c t rfl, decimalFrom]
  | cons c D ih =>
    intro x hx
    have hc : c.isDigit = true := hD c (List.mem_cons_self _ _)
    have hy : decimalFrom (x * 10 + (c.toNat - 48)) D ≤ 2 ^ 63 := hx
    have hle := le_decimalFrom D (x * 10 + (c.toNat - 48))
    have h1 : ¬ x > 2 ^ 63 / 10 := by omega
    have h2 : ¬ x * 10 + (c.toNat - 48) > 2 ^ 63 := by omega
    rw [List.cons_append, leadingInt]
    simp only [hc, if_true, h1, if_false, h2]
    exact ih (fun y hy => hD y (List.mem_cons_of_mem _ hy)) _ hy

theorem unitChar_of_digit (c : Char) (h : c.isDigit = true) : unitChar c = false := by
  simp [unitChar, h]

/-- One term `<digits><u>` of a duration, for a one-letter unit `u`, before the end of the
text or another digit. -/
theorem parseTerm_unit (frac : Nat → Nat → Nat → Nat) (D rest : List Char) (u : Char) (U : Nat)
    (hD : ∀ c ∈ D, c.isDigit = true) (hne : D ≠ [])
    (hu : u.isDigit = false) (hdot : u ≠ '.') (hU : unitMap [u] = some U)
    (hrest : ∀ c t, rest = c :: t → c.isDigit = true)
    (hv : decimal D * U ≤ 2 ^ 63) (hUpos : 0 < U) :
    parseTerm frac (D ++ u :: rest) = some (decimal D * U, rest) := by
  have hdec : decimal D ≤ 2 ^ 63 := by
    calc decimal D ≤ decimal D * U := Nat.le_mul_of_pos_right _ hUpos
      _ ≤ 2 ^ 63 := hv
  have hli := leadingInt_digits D (u :: rest) hD
    (by intro c t h; cases h; exact hu) 0 hdec
  obtain ⟨c, t, hct, hcd⟩ := head_nondigit D hD hne (u :: rest)
  have hlen : (D ++ u :: rest).length ≠ (u :: rest).length := by
    have : 0 < D.length := List.length_pos.mpr hne
    rw [List.length_append]; omega
  have htw : (u :: rest).takeWhile unitChar = [u] := by
    have huc : unitChar u = true := by simp [unitChar, hu, hdot]
    rw [List.takeWhile_cons, if_pos huc]
    cases rest with
    | nil => rfl
    | cons c t => rw [List.takeWhile_cons, if_neg (by simp [unitChar_of_digit c (hrest c t rfl)])]
  have hdw : (u :: rest).dropWhile unitChar = rest := by
    have huc : unitChar u = true := by simp [unitChar, hu, hdot]
    rw [List.dropWhile_cons, if_pos huc]
    cases rest with
    | nil => rfl
    | cons c t => rw [List.dropWhile_cons, if_neg (by simp [unitChar_of_digit c (hrest c t rfl)])]
  have hvU : ¬ decimal D > 2 ^ 63 / U :=
    Nat.not_lt.mpr ((Nat.le_div_iff_mul_le hUpos).mpr hv)
  have hfr : fractionPart (u :: rest) = (0, 0, u :: rest, false) := by
    simp [fractionPart, hdot]
  have hup : unitPart frac (decimal D) 0 0 (u :: rest) = some (decimal D * U, rest) := by
    unfold unitPart
    simp only [htw, hdw, hU]
    rw [if_neg (by simp), if_neg hvU, if_neg (by omega)]
  unfold parseTerm
  rw [hct] at hli hlen ⊢
  simp only [hcd, Bool.or_true, Bool.not_true, Bool.false_eq_true, if_false, hli]
  simp only [hfr, decide_eq_true hlen]
  exact hup

theorem hasToken_of_digitsThen (c : Char) (hc : c = 'h' ∨ c = 'm') :
    ∀ s : List Char, 0 < (s.takeWhile Char.isDigit).length →
      (s.dropWhile Char.isDigit).head? = some c → hasToken s = true := by
  intro s
  induction s with
  | nil => intro h; simp at h
  | cons x s ih =>
    intro htw hdw
    have hx : x.isDigit = true := by
      by_contra hx
      rw [List.takeWhile_cons, if_neg hx] at htw
      simp at htw
    rw [List.dropWhile_cons, if_pos hx] at hdw
    cases s with
    | nil => simp at hdw
    | cons y s =>
      by_cases hy : y.isDigit = true
      · have := ih (by rw [List.takeWhile_cons, if_pos hy]; simp) hdw
        simp [hasToken, this]
      · rw [List.dropWhile_cons, if_neg hy] at hdw
        simp only [List.head?_cons, Option.some.injEq] at hdw
        subst hdw
        rcases hc with h | h <;> simp [hasToken, hx, h]

theorem digitsThen_none_of_no_token (c : Char) (hc : c = 'h' ∨ c = 'm') (s : List Char)
    (h : hasToken s = false) : digitsThen c s = none := by
  unfold digitsThen
  dsimp only
  rw [if_neg]
  intro hh
  have := hasToken_of_digitsThen c hc s hh.1 hh.2
  rw [h] at this
  exact absurd this (by decide)

theorem matchLen_of_no_token (s : List Char) (h : hasToken s = false) : matchLen s = 0 := by
  unfold matchLen
  rw [digitsThen_none_of_no_token 'h' (Or.inl rfl) s h,
    digitsThen_none_of_no_token 'm' (Or.inr rfl) s h]

theorem hasToken_tail (c : Char) (s : List Char) (h : hasToken (c :: s) = false) :
    hasToken s = false := by
  cases s with
  | nil => rfl
  | cons d s =>
    simp only [hasToken, Bool.or_eq_false_iff] at h
    exact h.2

/-- A text without a token yields only empty matches. -/
theorem Join_allMatches_no_token (n : Nat) : ∀ (s : List Char) (b : Bool),
    hasToken s = false → Join (allMatches n s b) = [] := by
  induction n with
  | zero => intro s b _; rfl
  | succ n ih =>
    intro s b h
    unfold allMatches
    simp only [matchLen_of_no_token s h, if_true]
    cases s with
    | nil => cases b <;> simp [Join]
    | cons c rest =>
      have := ih rest false (hasToken_tail c rest h)
      simp only [Join] at this ⊢
      cases b <;> simp [this]

theorem ParseDuration_nil (frac : Nat → Nat → Nat → Nat) : ParseDuration frac [] = none := by
  simp [ParseDuration]

theorem Sub_self (t : Int) : Sub t t = 0 := by
  simp [Sub]

theorem Round_Minute (now : Int) :
    Round now Minute = 60000000000 * ((now + 30000000000) / 60000000000) := by
  have hM : Minute = 60000000000 := by decide
  unfold Round
  rw [hM]
  dsimp only
  rw [if_neg (by decide)]
  split <;> omega

theorem takeWhile_all_digits (D : List Char) (hD : ∀ x ∈ D, x.isDigit = true) :
    D.takeWhile Char.isDigit = D := by
  induction D with
  | nil => rfl
  | cons x D ih =>
    rw [List.takeWhile_cons, if_pos (hD x (List.mem_cons_self _ _)),
      ih (fun y hy => hD y (List.mem_cons_of_mem _ hy))]

theorem dropWhile_all_digits (D : List Char) (hD : ∀ x ∈ D, x.isDigit = true) :
    D.dropWhile Char.isDigit = [] := by
  induction D with
  | nil => rfl
  | cons x D ih =>
    rw [List.dropWhile_cons, if_pos (hD x (List.mem_cons_self _ _)),
      ih (fun y hy => hD y (List.mem_cons_of_mem _ hy))]

theorem digitsThen_all_digits (c : Char) (D : List Char) (hD : ∀ x ∈ D, x.isDigit = true) :
    digitsThen c D = none := by
  unfold digitsThen
  simp [dropWhile_all_digits D hD]

/-- A text of digits alone gives no match. -/
theorem joined_all_digits (D : List Char) (hD : ∀ x ∈ D, x.isDigit = true) : joined D = [] := by
  induction D with
  | nil => exact joined_nil
  | cons x D ih =>
    have hm : matchLen (x :: D) = 0 := by
      unfold matchLen
      rw [digitsThen_all_digits 'h' _ hD, digitsThen_all_digits 'm' _ hD]
    rw [joined_skip x D hm]
    exact ih (fun y hy => hD y (List.mem_cons_of_mem _ hy))

/-- A run of digits that is not followed by `h` or `m` gives no match. -/
theorem joined_skip_run (D : List Char) (c : Char) (s : List Char)
    (hD : ∀ x ∈ D, x.isDigit = true) (hc : c.isDigit = false) (hh : c ≠ 'h') (hm : c ≠ 'm') :
    joined (D ++ c :: s) = joined s := by
  induction D with
  | nil => exact joined_skip c s (matchLen_nondigit c s hc)
  | cons x D ih =>
    have h0 : matchLen (x :: (D ++ c :: s)) = 0 := by
      rw [← List.cons_append]
      unfold matchLen
      rw [digitsThen_other (x :: D) 'h' c s hD hc hh, digitsThen_other (x :: D) 'm' c s hD hc hm]
    rw [List.cons_append, joined_skip x _ h0]
    exact ih (fun y hy => hD y (List.mem_cons_of_mem _ hy))

/-- What a match of `(\d+)m` at the start of a text says about the text. -/
theorem digitsThen_some (c : Char) (hc : c.isDigit = false) (s : List Char) (b : Nat)
    (h : digitsThen c s = some b) :
    ∃ D rest, s = D ++ c :: rest ∧ D ≠ [] ∧ (∀ x ∈ D, x.isDigit = true) ∧ b = D.length + 1 := by
  unfold digitsThen at h
  dsimp only at h
  split at h
  · rename_i hh
    obtain ⟨hpos, hhead⟩ := hh
    have hsplit := List.takeWhile_append_dropWhile Char.isDigit s
    cases hdw : s.dropWhile Char.isDigit with
    | nil => rw [hdw] at hhead; simp at hhead
    | cons y rest =>
      rw [hdw] at hhead
      simp only [List.head?_cons, Option.some.injEq] at hhead
      subst hhead
      refine ⟨s.takeWhile Char.isDigit, rest, ?_, List.length_pos.mp hpos, ?_, ?_⟩
      · rw [← hdw]; exact hsplit.symm
      · intro x hx; exact (List.mem_takeWhile_imp hx)
      · simp only [Option.some.injEq] at h; exact h.symm
  · exact absurd h (by simp)

/-- A run of digits closed by `h` is delivered as it is, whether or not minutes follow. -/
theorem joined_hours (D s : List Char) (hD : ∀ x ∈ D, x.isDigit = true) (hne : D ≠ []) :
    joined (D ++ 'h' :: s) = D ++ 'h' :: joined s := by
  have hh : digitsThen 'h' (D ++ 'h' :: s) = some (D.length + 1) :=
    digitsThen_token D 'h' s hD hne isDigit_h
  have e2 : (D ++ 'h' :: s).drop (D.length + 1) = s := by
    rw [show D ++ 'h' :: s = (D ++ ['h']) ++ s by simp]
    exact List.drop_left' (by simp)
  cases hm : digitsThen 'm' s with
  | none =>
    have hlen : matchLen (D ++ 'h' :: s) = D.length + 1 := by
      unfold matchLen
      rw [hh]
      simp only [e2, hm]
    have e1 : (D ++ 'h' :: s).take (D.length + 1) = D ++ ['h'] := by
      rw [show D ++ 'h' :: s = (D ++ ['h']) ++ s by simp]
      exact List.take_left' (by simp)
    rw [joined_match _ (by rw [hlen]; omega), hlen, e1, e2]
    simp
  | some b =>
    obtain ⟨D2, rest, hs, hne2, hD2, hb⟩ := digitsThen_some 'm' isDigit_m s b hm
    subst hs
    have hlen : matchLen (D ++ 'h' :: (D2 ++ 'm' :: rest)) = D.length + 1 + (D2.length + 1) := by
      unfold matchLen
      rw [hh]
      simp only [e2, hm, hb]
    have t1 : (D ++ 'h' :: (D2 ++ 'm' :: rest)).take (D.length + 1 + (D2.length + 1))
        = D ++ 'h' :: (D2 ++ ['m']) := by
      rw [show D ++ 'h' :: (D2 ++ 'm' :: rest) = (D ++ 'h' :: (D2 ++ ['m'])) ++ rest by simp]
      exact List.take_left' (by simp; omega)
    have t2 : (D ++ 'h' :: (D2 ++ 'm' :: rest)).drop (D.length + 1 + (D2.length + 1)) = rest := by
      rw [show D ++ 'h' :: (D2 ++ 'm' :: rest) = (D ++ 'h' :: (D2 ++ ['m'])) ++ rest by simp]
      exact List.drop_left' (by simp; omega)
    rw [joined_match _ (by rw [hlen]; omega), hlen, t1, t2, joined_minutes D2 rest hD2 hne2]
    simp

/-- The joined matches of a text are its tokens written one after the other. -/
theorem joined_eq_tokens : ∀ (s R : List Char), (∀ x ∈ R, x.isDigit = true) →
    joined (R ++ s) = tokensText (scanTokens R s) := by
  intro s
  induction s with
  | nil =>
    intro R hR
    rw [List.append_nil, joined_all_digits R hR]
    rfl
  | cons c s ih =>
    intro R hR
    rw [scanTokens]
    by_cases hc : c.isDigit = true
    · rw [if_pos hc, ← ih (R ++ [c])]
      · simp
      · intro x hx
        rcases List.mem_append.mp hx with hx | hx
        · exact hR x hx
        · simp only [List.mem_singleton] at hx; rw [hx]; exact hc
    · have hc' : c.isDigit = false := by simpa using hc
      rw [if_neg hc]
      have ih0 : joined s = tokensText (scanTokens [] s) := by
        have := ih [] (by simp)
        simpa using this
      by_cases htok : R ≠ [] ∧ (c = 'h' ∨ c = 'm')
      · rw [if_pos htok]
        rcases htok.2 with h | h
        · subst h
          rw [joined_hours R s hR htok.1, ih0]; rfl
        · subst h
          rw [joined_minutes R s hR htok.1, ih0]; rfl
      · rw [if_neg htok, ← ih0]
        by_cases hRn : R = []
        · subst hRn
          exact joined_skip c s (matchLen_nondigit c s hc')
        · have hnot : ¬ (c = 'h' ∨ c = 'm') := fun h => htok ⟨hRn, h⟩
          exact joined_skip_run R c s hR hc' (fun h => hnot (Or.inl h)) (fun h => hnot (Or.inr h))

/-- Every token that the scan produces is well formed. -/
theorem scanTokens_wellFormed : ∀ (s R : List Char), (∀ x ∈ R, x.isDigit = true) →
    ∀ t ∈ scanTokens R s, wellFormedToken t := by
  intro s
  induction s with
  | nil => intro R _ t ht; simp [scanTokens] at ht
  | cons c s ih =>
    intro R hR t ht
    rw [scanTokens] at ht
    by_cases hc : c.isDigit = true
    · rw [if_pos hc] at ht
      refine ih (R ++ [c]) ?_ t ht
      intro x hx
      rcases List.mem_append.mp hx with hx | hx
      · exact hR x hx
      · simp only [List.mem_singleton] at hx; rw [hx]; exact hc
    · rw [if_neg hc] at ht
      by_cases htok : R ≠ [] ∧ (c = 'h' ∨ c = 'm')
      · rw [if_pos htok] at ht
        rcases List.mem_cons.mp ht with ht | ht
        · subst ht; exact ⟨htok.1, hR, htok.2⟩
        · exact ih [] (by simp) t ht
      · rw [if_neg htok] at ht
        exact ih [] (by simp) t ht

/-- The text of well-formed tokens is empty or begins with a digit. -/
theorem tokensText_head (T : List (List Char × Char)) (hT : ∀ t ∈ T, wellFormedToken t) :
    ∀ c r, tokensText T = c :: r → c.isDigit = true := by
  intro c r h
  cases T with
  | nil => simp [tokensText] at h
  | cons t T =>
    obtain ⟨hne, hd, -⟩ := hT t (List.mem_cons_self _ _)
    obtain ⟨x, y, hxy, hx⟩ := head_nondigit t.1 hd hne (t.2 :: tokensText T)
    rw [tokensText, hxy] at h
    cases h
    exact hx

theorem unitMap_token (t : List Char × Char) (ht : wellFormedToken t) :
    unitMap [t.2] = some (if t.2 = 'h' then 3600000000000 else 60000000000) ∧
      t.2.isDigit = false ∧ t.2 ≠ '.' := by
  rcases ht.2.2 with h | h <;> rw [h] <;> decide

/-- The loop of `time.ParseDuration` on the text of well-formed tokens adds up their
nanoseconds, as long as the sum stays within 63 bits. -/
theorem parseTerms_tokens (frac : Nat → Nat → Nat → Nat) :
    ∀ (T : List (List Char × Char)) (fuel d : Nat), (∀ t ∈ T, wellFormedToken t) →
      (tokensText T).length ≤ fuel → d + tokensNanos T ≤ 2 ^ 63 →
      parseTerms frac fuel d (tokensText T) = some (d + tokensNanos T) := by
  intro T
  induction T with
  | nil =>
    intro fuel d _ _ _
    cases fuel <;> simp [tokensText, tokensNanos, parseTerms]
  | cons t T ih =>
    intro fuel d hT hfuel hfit
    have ht := hT t (List.mem_cons_self _ _)
    have hT' : ∀ x ∈ T, wellFormedToken x := fun x hx => hT x (List.mem_cons_of_mem _ hx)
    obtain ⟨hU, hnd, hdot⟩ := unitMap_token t ht
    have hUpos : 0 < (if t.2 = 'h' then 3600000000000 else 60000000000 : Nat) := by
      split <;> omega
    rw [tokensNanos] at hfit
    have hnan : tokenNanos t
        = decimal t.1 * (if t.2 = 'h' then 3600000000000 else 60000000000) := rfl
    have hv : decimal t.1 * (if t.2 = 'h' then 3600000000000 else 60000000000) ≤ 2 ^ 63 := by
      rw [← hnan]; omega
    have hpt := parseTerm_unit frac t.1 (tokensText T) t.2 _ ht.2.1 ht.1 hnd hdot hU
      (tokensText_head T hT') hv hUpos
    rw [← hnan] at hpt
    obtain ⟨x, y, hxy, -⟩ := head_nondigit t.1 ht.2.1 ht.1 (t.2 :: tokensText T)
    have hlen : (tokensText T).length < (tokensText (t :: T)).length := by
      rw [tokensText, List.length_append, List.length_cons]; omega
    cases fuel with
    | zero => omega
    | succ fuel =>
      have hgoal : tokensText (t :: T) = x :: y := by rw [tokensText, hxy]
      rw [hxy] at hpt
      rw [hgoal, parseTerms]
      simp only [hpt]
      rw [Nat.mod_eq_of_lt (by omega), if_neg (by omega),
        ih fuel _ hT' (by omega) (by omega), tokensNanos, Nat.add_assoc]

/-- The duration that `time.ParseDuration` reads from the text of well-formed tokens: their
sum, when it is within the range of a `Duration`. -/
theorem ParseDuration_tokens (frac : Nat → Nat → Nat → Nat) (T : List (List Char × Char))
    (hT : ∀ t ∈ T, wellFormedToken t) (hne : T ≠ []) (hfit : tokensNanos T ≤ 2 ^ 63 - 1) :
    ParseDuration frac (tokensText T) = some (tokensNanos T : Int) := by
  cases T with
  | nil => exact absurd rfl hne
  | cons t T =>
    obtain ⟨h1, hd, -⟩ := hT t (List.mem_cons_self _ _)
    obtain ⟨c, r, hcr, hc⟩ := head_nondigit t.1 hd h1 (t.2 :: tokensText T)
    have htext : tokensText (t :: T) = c :: r := by rw [tokensText, hcr]
    have hneg : c ≠ '-' := by intro h; rw [h] at hc; exact absurd hc (by decide)
    have hpos : c ≠ '+' := by intro h; rw [h] at hc; exact absurd hc (by decide)
    have hr : r ≠ [] := by
      intro h
      have hl := congrArg List.length hcr
      rw [h] at hl
      have : 0 < t.1.length := List.length_pos.mpr h1
      simp at hl; omega
    have hterms := parseTerms_tokens frac (t :: T) (tokensText (t :: T)).length 0 hT
      (Nat.le_refl _) (by omega)
    rw [Nat.zero_add] at hterms
    have hs : (if (tokensText (t :: T)).head? = some '-' ∨ (tokensText (t :: T)).head? = some '+'
        then (tokensText (t :: T)).tail else tokensText (t :: T)) = tokensText (t :: T) := by
      rw [htext]; simp [hneg, hpos]
    have hnotneg : decide ((tokensText (t :: T)).head? = some '-') = false := by
      rw [htext]; simp [hneg]
    have hne0 : tokensText (t :: T) ≠ ['0'] := by rw [htext]; simp [hr]
    have hnil : tokensText (t :: T) ≠ [] := by rw [htext]; simp
    unfold ParseDuration
    simp only [hs, hnotneg, if_neg hne0, if_neg hnil, hterms]
    rw [if_neg (by simp), if_neg (by omega)]

/-- What `FromResponse` decodes from a text that holds a token: the sum of its tokens, when
that is within the range of a `Duration`. -/
theorem decode_tokens (frac : Nat → Nat → Nat → Nat) (text : List Char)
    (htok : tokensOf text ≠ []) (hfit : advisedNanos text ≤ 2 ^ 63 - 1) :
    ParseDuration frac (Join (FindAllString text)) = some (advisedNanos text : Int) := by
  have hj : joined text = tokensText (tokensOf text) := by
    have := joined_eq_tokens text [] (by simp)
    simpa using this
  unfold joined at hj
  rw [hj]
  exact ParseDuration_tokens frac (tokensOf text)
    (scanTokens_wellFormed text [] (by simp)) htok hfit

theorem scanTokens_digits (D : List Char) (hD : ∀ x ∈ D, x.isDigit = true) :
    ∀ (R s : List Char), scanTokens R (D ++ s) = scanTokens (R ++ D) s := by
  induction D with
  | nil => intro R s; simp
  | cons x D ih =>
    intro R s
    rw [List.cons_append, scanTokens, if_pos (hD x (List.mem_cons_self _ _)),
      ih (fun y hy => hD y (List.mem_cons_of_mem _ hy))]
    simp

/-- Text that holds no token and does not end in a digit leaves the scan as it found it. -/
theorem scanTokens_no_token : ∀ (p R s : List Char), scanTokens R p = [] →
    (∀ c, p.getLast? = some c → c.isDigit = false) → (p = [] → R = []) →
    scanTokens R (p ++ s) = scanTokens [] s := by
  intro p
  induction p with
  | nil => intro R s _ _ h; rw [h rfl]; rfl
  | cons c p ih =>
    intro R s hscan hlast _
    rw [scanTokens] at hscan
    rw [List.cons_append, scanTokens]
    by_cases hc : c.isDigit = true
    · rw [if_pos hc] at hscan ⊢
      have hp : p ≠ [] := by
        intro h
        subst h
        have := hlast c rfl
        rw [hc] at this
        exact absurd this (by simp)
      refine ih _ s hscan ?_ (fun h => absurd h hp)
      intro d hd
      apply hlast d
      cases p with
      | nil => exact absurd rfl hp
      | cons y p => simpa using hd
    · rw [if_neg hc] at hscan ⊢
      by_cases htok : R ≠ [] ∧ (c = 'h' ∨ c = 'm')
      · rw [if_pos htok] at hscan
        exact absurd hscan (by simp)
      · rw [if_neg htok] at hscan ⊢
        refine ih [] s hscan ?_ (fun _ => rfl)
        intro d hd
        apply hlast d
        cases p with
        | nil => simp at hd
        | cons y p => simpa using hd

/-- C2 as stated fails: at ten seconds past a whole minute the advisory `1h30m` gives the
whole minute below plus ninety minutes, not the whole minute above plus ninety minutes. -/
theorem FromResponse_does_not_round_up :
    (FromResponse (fun _ _ _ => 0) 10000000000 ['1', 'h', '3', '0', 'm']).retryAt
        = 5400000000000 ∧
      roundUpToMinute 10000000000 + (1 * Hour + 30 * Minute) = 5460000000000 ∧
      (FromResponse (fun _ _ _ => 0) 10000000000 ['1', 'h', '3', '0', 'm']).retryAt
        ≠ roundUpToMinute 10000000000 + (1 * Hour + 30 * Minute) := by
  decide

/-- The tokens of a text that holds one `<n>h` and, directly or after text without a token,
one `<n>m`, between texts without a token (digits that are not part of a token may stand
anywhere, except directly before the digits of a token). -/
theorem tokensOf_hours_minutes (pre D1 mid D2 post : List Char)
    (hpre : tokensOf pre = []) (hpreLast : ∀ c, pre.getLast? = some c → c.isDigit = false)
    (hmid : tokensOf mid = []) (hmidLast : ∀ c, mid.getLast? = some c → c.isDigit = false)
    (hpost : tokensOf post = [])
    (hD1 : ∀ x ∈ D1, x.isDigit = true) (hD2 : ∀ x ∈ D2, x.isDigit = true)
    (h1 : D1 ≠ []) (h2 : D2 ≠ []) :
    tokensOf (pre ++ D1 ++ 'h' :: (mid ++ D2 ++ 'm' :: post)) = [(D1, 'h'), (D2, 'm')] := by
  unfold tokensOf at *
  rw [List.append_assoc, scanTokens_no_token pre [] _ hpre hpreLast (fun _ => rfl),
    scanTokens_digits D1 hD1, List.nil_append, scanTokens, if_neg (by simp [isDigit_h]),
    if_pos ⟨h1, Or.inl rfl⟩, List.append_assoc,
    scanTokens_no_token mid [] _ hmid hmidLast (fun _ => rfl),
    scanTokens_digits D2 hD2, List.nil_append, scanTokens, if_neg (by simp [isDigit_m]),
    if_pos ⟨h2, Or.inr rfl⟩, hpost]

/-- C2, amended: for every advisory text that holds at least one token `<digits>h` or
`<digits>m` and whose tokens add up to a duration within the range of a `Duration`,
`FromResponse` at `now` gives `retryAt` equal to `now` rounded to the nearest whole minute (a
half minute or more rounds up, less rounds down) plus that duration.  For a text that holds
one `<n>h` and, directly or after text without a token, one `<n>m`, with any text without a
token around them, the duration is `n` hours and `n` minutes. -/
theorem FromResponse_valid_duration (frac : Nat → Nat → Nat → Nat) (now : Int)
    (text : List Char) (htok : tokensOf text ≠ []) (hfit : advisedNanos text ≤ 2 ^ 63 - 1) :
    (FromResponse frac now text).retryAt = Round now Minute + (advisedNanos text : Int) ∧
      Round now Minute % Minute = 0 ∧
      now - 30 * Second < Round now Minute ∧ Round now Minute ≤ now + 30 * Second ∧
      (∀ pre D1 mid D2 post : List Char,
        tokensOf pre = [] → (∀ c, pre.getLast? = some c → c.isDigit = false) →
        tokensOf mid = [] → (∀ c, mid.getLast? = some c → c.isDigit = false) →
        tokensOf post = [] →
        (∀ x ∈ D1, x.isDigit = true) → (∀ x ∈ D2, x.isDigit = true) → D1 ≠ [] → D2 ≠ [] →
        text = pre ++ D1 ++ 'h' :: (mid ++ D2 ++ 'm' :: post) →
        (advisedNanos text : Int) = (decimal D1 : Int) * Hour + (decimal D2 : Int) * Minute) := by
  have hR := Round_Minute now
  have hM : Minute = 60000000000 := by decide
  have hH : Hour = 3600000000000 := by decide
  have hS : Second = 1000000000 := by decide
  refine ⟨?_, ?_, ?_, ?_, ?_⟩
  · unfold FromResponse
    simp only [decode_tokens frac text htok hfit]
  · rw [hR, hM]; omega
  · rw [hR, hS]; omega
  · rw [hR, hS]; omega
  · intro pre D1 mid D2 post hpre hpreLast hmid hmidLast hpost hD1 hD2 h1 h2 htext
    have ht := tokensOf_hours_minutes pre D1 mid D2 post hpre hpreLast hmid hmidLast hpost
      hD1 hD2 h1 h2
    unfold advisedNanos
    rw [htext, ht, hM, hH]
    simp [tokensNanos, tokenNanos]

theorem FromResponse_valid_duration_witness :
    (FromResponse (fun _ _ _ => 0) 10000000000
        ['E', 'r', 'r', 'o', 'r', ' ', '4', '1', '2', ':', ' ', 'r', 'e', 't', 'r', 'y', ' ',
          'i', 'n', ' ', '1', 'h', '3', '0', 'm']).retryAt
        = Round 10000000000 Minute
          + (advisedNanos ['E', 'r', 'r', 'o', 'r', ' ', '4', '1', '2', ':', ' ', 'r', 'e', 't',
              'r', 'y', ' ', 'i', 'n', ' ', '1', 'h', '3', '0', 'm'] : Int) ∧
      Round 10000000000 Minute % Minute = 0 ∧
      10000000000 - 30 * Second < Round 10000000000 Minute ∧
      Round 10000000000 Minute ≤ 10000000000 + 30 * Second ∧
      (∀ pre D1 mid D2 post : List Char,
        tokensOf pre = [] → (∀ c, pre.getLast? = some c → c.isDigit = false) →
        tokensOf mid = [] → (∀ c, mid.getLast? = some c → c.isDigit = false) →
        tokensOf post = [] →
        (∀ x ∈ D1, x.isDigit = true) → (∀ x ∈ D2, x.isDigit = true) → D1 ≠ [] → D2 ≠ [] →
        ['E', 'r', 'r', 'o', 'r', ' ', '4', '1', '2', ':', ' ', 'r', 'e', 't', 'r', 'y', ' ',
          'i', 'n', ' ', '1', 'h', '3', '0', 'm'] = pre ++ D1 ++ 'h' :: (mid ++ D2 ++ 'm' :: post) →
        (advisedNanos ['E', 'r', 'r', 'o', 'r', ' ', '4', '1', '2', ':', ' ', 'r', 'e', 't',
            'r', 'y', ' ', 'i', 'n', ' ', '1', 'h', '3', '0', 'm'] : Int)
          = (decimal D1 : Int) * Hour + (decimal D2 : Int) * Minute) :=
  FromResponse_valid_duration (fun _ _ _ => 0) 10000000000
    ['E', 'r', 'r', 'o', 'r', ' ', '4', '1', '2', ':', ' ', 'r', 'e', 't', 'r', 'y', ' ',
      'i', 'n', ' ', '1', 'h', '3', '0', 'm'] (by decide) (by decide)

/-- The advisory `Error 412: retry in 1h30m`, with digits that belong to no token, read ten
seconds past a whole minute: ninety minutes are decoded and added to the minute below. -/
theorem FromResponse_stray_digits :
    tokensOf ['E', 'r', 'r', 'o', 'r', ' ', '4', '1', '2', ':', ' ', 'r', 'e', 't', 'r', 'y', ' ',
        'i', 'n', ' ', '1', 'h', '3', '0', 'm'] = [(['1'], 'h'), (['3', '0'], 'm')] ∧
      advisedNanos ['E', 'r', 'r', 'o', 'r', ' ', '4', '1', '2', ':', ' ', 'r', 'e', 't', 'r', 'y',
        ' ', 'i', 'n', ' ', '1', 'h', '3', '0', 'm'] = 5400000000000 ∧
      (FromResponse (fun _ _ _ => 0) 10000000000
        ['E', 'r', 'r', 'o', 'r', ' ', '4', '1', '2', ':', ' ', 'r', 'e', 't', 'r', 'y', ' ',
          'i', 'n', ' ', '1', 'h', '3', '0', 'm']).retryAt = 5400000000000 ∧
      (FromResponse (fun _ _ _ => 0) 10000000000
        ['5', 'm', ' ', 'o', 'r', ' ', '2', '3', 'h', ' ', '5', '6', 'm']).retryAt
        = 86460000000000 := by
  decide

/-- A number of hours beyond the range of a `Duration` is matched but does not parse. -/
theorem decode_out_of_range :
    Join (FindAllString ['9', '9', '9', '9', '9', '9', '9', '9', '9', '9', 'h'])
        = ['9', '9', '9', '9', '9', '9', '9', '9', '9', '9', 'h'] ∧
      ParseDuration (fun _ _ _ => 0)
        (Join (FindAllString ['9', '9', '9', '9', '9', '9', '9', '9', '9', '9', 'h'])) = none := by
  decide

/-- C9: when the advisory text holds no digit directly followed by `h` or `m` (the empty text
included), or when the joined matches do not parse as a duration, `FromResponse` at `now`
gives `retryAt = now`, so that the wait `RetryIn` taken at `now` is zero. -/
theorem FromResponse_no_duration (frac : Nat → Nat → Nat → Nat) (now : Int) (text : List Char)
    (h : hasToken text = false ∨ ParseDuration frac (Join (FindAllString text)) = none) :
    (FromResponse frac now text).retryAt = now ∧ (FromResponse frac now text).RetryIn now = 0 := by
  have hnone : ParseDuration frac (Join (FindAllString text)) = none := by
    rcases h with h | h
    · unfold FindAllString
      rw [Join_allMatches_no_token _ _ _ h, ParseDuration_nil]
    · exact h
  have hr : FromResponse frac now text = { retryAt := now } := by
    unfold FromResponse
    simp only [hnone]
  rw [hr]
  exact ⟨rfl, Sub_self now⟩

theorem FromResponse_no_duration_witness :
    (FromResponse (fun _ _ _ => 0) 1234567 ['t', 'r', 'y', ' ', '5', ' ', 'h']).retryAt = 1234567 ∧
      (FromResponse (fun _ _ _ => 0) 1234567 ['t', 'r', 'y', ' ', '5', ' ', 'h']).RetryIn 1234567
        = 0 :=
  FromResponse_no_duration (fun _ _ _ => 0) 1234567 ['t', 'r', 'y', ' ', '5', ' ', 'h']
    (Or.inl (by decide))

/-! ## The transfer (C5, C6, C10) -/

theorem partLengths_step (P L : Nat) (hP : 0 < P) (h : P ≤ L) :
    partLengths P L = P :: partLengths P (L - P) := by
  unfold partLengths
  have h1 : L / P = (L - P) / P + 1 := by
    rw [Nat.div_eq_sub_div hP h]
  have h2 : L % P = (L - P) % P := Nat.mod_eq_sub_mod h
  rw [h1, h2, List.replicate_succ, List.cons_append]

theorem partLengths_short (P L : Nat) (h0 : 0 < L) (h : L < P) : partLengths P L = [L] := by
  unfold partLengths
  rw [Nat.div_eq_of_lt h, Nat.mod_eq_of_lt h, if_neg (by omega)]
  rfl

theorem partLengths_zero (P : Nat) : partLengths P 0 = [] := by
  simp [partLengths]

theorem ReadFull_full (reader : Body) (P : Nat) (h : P ≤ reader.data.length) :
    ReadFull reader P = (reader.data.take P, none, { reader with data := reader.data.drop P }) := by
  simp [ReadFull, h]

theorem ReadFull_short (reader : Body) (P : Nat) (h : reader.data.length < P) :
    ReadFull reader P = (reader.data,
      some (if reader.term = GoError.EOF ∧ reader.data ≠ [] then GoError.ErrUnexpectedEOF
        else reader.term), { reader with data := [] }) := by
  simp [ReadFull, Nat.not_le.mpr h]

/-- The part loop on a stream that ends cleanly, with a store that accepts every part: the
parts uploaded and the part list handed on. -/
theorem transferLoop_parts (P : Nat) (hP : 0 < P) (s3 : S3)
    (hs3 : ∀ k b, (s3.uploadPart k b).2 = none) (size : Int) (hsize : 0 < size) :
    ∀ (fuel pn : Nat) (reader : Body) (pm : List CompletedPart),
      reader.term = GoError.EOF → reader.data.length < fuel →
      (uploads (transferLoop P s3 size fuel pn reader pm).1).map Prod.snd
          = partLengths P reader.data.length ∧
        (uploads (transferLoop P s3 size fuel pn reader pm).1).map Prod.fst
          = List.range' pn (partLengths P reader.data.length).length ∧
        ∃ parts, (transferLoop P s3 size fuel pn reader pm).2 = LoopExit.finished (pm ++ parts) ∧
          parts.map CompletedPart.PartNumber
            = List.range' pn (partLengths P reader.data.length).length := by
  intro fuel
  induction fuel with
  | zero => intro pn reader pm _ h; omega
  | succ fuel ih =>
    intro pn reader pm hterm hfuel
    rw [transferLoop]
    simp only [hsize, not_true_eq_false, if_false]
    by_cases hfull : P ≤ reader.data.length
    · rw [ReadFull_full reader P hfull]
      have hlen : (reader.data.take P).length = P := by
        rw [List.length_take]; omega
      have hrec := ih (pn + 1) { reader with data := reader.data.drop P }
        (pm ++ [{ PartNumber := pn, ETag := (s3.uploadPart pn (reader.data.take P)).1 }])
        hterm (by simp only [List.length_drop]; omega)
      simp only [List.length_drop] at hrec
      obtain ⟨h1, h2, parts, h3, h4⟩ := hrec
      simp only [hs3, partLengths_step P _ hP hfull, List.length_cons, List.range'_succ]
      simp [uploads, hlen, h1, h2, h3, h4]
    · have hshort : reader.data.length < P := Nat.not_le.mp hfull
      rw [ReadFull_short reader P hshort]
      by_cases hnil : reader.data = []
      · simp [hnil, hterm, uploads, partLengths_zero]
      · have hpos : 0 < reader.data.length := List.length_pos.mpr hnil
        have hrec := ih (pn + 1) { reader with data := [] }
          (pm ++ [{ PartNumber := pn, ETag := (s3.uploadPart pn reader.data).1 }])
          hterm (by simp only [List.length_nil]; omega)
        simp only [List.length_nil, partLengths_zero, List.map_eq_nil_iff] at hrec
        obtain ⟨h1, -, parts, h3, h4⟩ := hrec
        rw [hterm] at h1 h3
        have hparts : parts = [] := by simpa using h4
        subst hparts
        simp only [hterm, hnil, hs3, partLengths_short P _ hpos hshort]
        simp [uploads, h1, h3, Nat.pos_iff_ne_zero.mp hpos]

theorem uploads_append (a b : List Event) : uploads (a ++ b) = uploads a ++ uploads b := by
  induction a with
  | nil => rfl
  | cons x a ih => cases x <;> simp [uploads, ih]

theorem partSize_eq : partSize = 67108864 := by decide

/-- The uploads of a whole transfer are those of its part loop, and, when the loop falls out
with a part list, the completion request carries that list. -/
theorem uploadTo_of_loop (P : Nat) (s3 : S3) (reader : Body) (size : Int)
    (hcreate : s3.createMultipartUpload = none) (parts : List CompletedPart)
    (hloop : (transferLoop P s3 size (reader.data.length + 1) 1 reader []).2
      = LoopExit.finished parts) :
    uploads (uploadTo P s3 reader size).1
        = uploads (transferLoop P s3 size (reader.data.length + 1) 1 reader []).1 ∧
      Event.completeMultipartUpload parts (s3.completeMultipartUpload parts).2
        ∈ (uploadTo P s3 reader size).1 := by
  unfold uploadTo
  simp only [hcreate, hloop]
  constructor
  · split <;> split <;> simp [uploads_append, uploads]
  · split <;> split <;> simp

/-- C5: for a declared length `L > 0`, a stream that yields exactly `L` bytes and then ends
cleanly, and a store that accepts the upload and every part, the transfer with part size
64 MiB uploads `ceil(L / partSize)` parts, numbered 1, 2, ... in this order; every part but the
last has `partSize` bytes, the last has `L mod partSize` bytes when that is not zero and
`partSize` bytes otherwise, no part is longer than `partSize`, and the completion request
carries the part records 1, 2, ... in order.  For 150 MiB these are parts of 64, 64 and
22 MiB. -/
theorem uploadTo_part_layout (s3 : S3) (reader : Body) (L : Nat)
    (hcreate : s3.createMultipartUpload = none)
    (hs3 : ∀ k b, (s3.uploadPart k b).2 = none)
    (hterm : reader.term = GoError.EOF) (hlen : reader.data.length = L) (hL : 0 < L) :
    (uploads (uploadTo partSize s3 reader (L : Int)).1).length = (L + partSize - 1) / partSize ∧
      (uploads (uploadTo partSize s3 reader (L : Int)).1).map Prod.fst
        = List.range' 1 ((L + partSize - 1) / partSize) ∧
      (∀ i, i + 1 < (L + partSize - 1) / partSize →
        ((uploads (uploadTo partSize s3 reader (L : Int)).1).map Prod.snd)[i]? = some partSize) ∧
      ((uploads (uploadTo partSize s3 reader (L : Int)).1).map Prod.snd).getLast?
        = some (if L % partSize ≠ 0 then L % partSize else partSize) ∧
      (∀ x ∈ (uploads (uploadTo partSize s3 reader (L : Int)).1).map Prod.snd, x ≤ partSize) ∧
      (∃ parts, Event.completeMultipartUpload parts (s3.completeMultipartUpload parts).2
          ∈ (uploadTo partSize s3 reader (L : Int)).1 ∧
        parts.map CompletedPart.PartNumber = List.range' 1 ((L + partSize - 1) / partSize)) ∧
      (L = 157286400 → (uploads (uploadTo partSize s3 reader (L : Int)).1).map Prod.snd
        = [67108864, 67108864, 23068672]) := by
  have hP : 0 < partSize := by decide
  subst hlen
  obtain ⟨h1, h2, parts, h3, h4⟩ := transferLoop_parts partSize hP s3 hs3 (reader.data.length : Int)
    (by exact_mod_cast hL) (reader.data.length + 1) 1 reader [] hterm (by omega)
  rw [List.nil_append] at h3
  obtain ⟨hu, hc⟩ := uploadTo_of_loop partSize s3 reader _ hcreate parts h3
  rw [hu]
  have hcount : (partLengths partSize reader.data.length).length
      = (reader.data.length + partSize - 1) / partSize := by
    unfold partLengths
    rw [partSize_eq, List.length_append, List.length_replicate]
    split <;> simp <;> omega
  have hlenU : (uploads (transferLoop partSize s3 (reader.data.length : Int)
      (reader.data.length + 1) 1 reader []).1).length
      = (reader.data.length + partSize - 1) / partSize := by
    rw [← hcount, ← h1, List.length_map]
  rw [hcount] at h2 h4
  refine ⟨hlenU, h2, ?_, ?_, ?_, ⟨parts, hc, h4⟩, ?_⟩
  · intro i hi
    rw [h1]
    unfold partLengths
    have hi' : i < reader.data.length / partSize := by
      rw [partSize_eq] at hi ⊢; omega
    rw [List.getElem?_append_left (by rw [List.length_replicate]; exact hi')]
    simp [hi']
  · rw [h1]
    unfold partLengths
    by_cases hm : reader.data.length % partSize = 0
    · have hq : 0 < reader.data.length / partSize := by
        rw [partSize_eq] at hm ⊢; omega
      obtain ⟨q, hq'⟩ : ∃ q, reader.data.length / partSize = q + 1 :=
        ⟨reader.data.length / partSize - 1, by omega⟩
      simp [hm, hq', List.replicate_succ']
    · simp [hm]
  · intro x hx
    rw [h1] at hx
    unfold partLengths at hx
    rw [List.mem_append] at hx
    rcases hx with hx | hx
    · rw [(List.mem_replicate.mp hx).2]
    · split at hx
      · simp at hx
      · simp only [List.mem_singleton] at hx
        rw [hx]
        exact Nat.le_of_lt (Nat.mod_lt _ hP)
  · intro hL150
    rw [h1, hL150]
    decide

theorem uploadTo_part_layout_witness :
    (uploads (uploadTo partSize s3Accepting archive150MiB ((157286400 : Nat) : Int)).1).length
        = (157286400 + partSize - 1) / partSize ∧
      (uploads (uploadTo partSize s3Accepting archive150MiB ((157286400 : Nat) : Int)).1).map
          Prod.fst = List.range' 1 ((157286400 + partSize - 1) / partSize) ∧
      (∀ i, i + 1 < (157286400 + partSize - 1) / partSize →
        ((uploads (uploadTo partSize s3Accepting archive150MiB
          ((157286400 : Nat) : Int)).1).map Prod.snd)[i]? = some partSize) ∧
      ((uploads (uploadTo partSize s3Accepting archive150MiB
          ((157286400 : Nat) : Int)).1).map Prod.snd).getLast?
        = some (if 157286400 % partSize ≠ 0 then 157286400 % partSize else partSize) ∧
      (∀ x ∈ (uploads (uploadTo partSize s3Accepting archive150MiB
          ((157286400 : Nat) : Int)).1).map Prod.snd, x ≤ partSize) ∧
      (∃ parts, Event.completeMultipartUpload parts (s3Accepting.completeMultipartUpload parts).2
          ∈ (uploadTo partSize s3Accepting archive150MiB ((157286400 : Nat) : Int)).1 ∧
        parts.map CompletedPart.PartNumber
          = List.range' 1 ((157286400 + partSize - 1) / partSize)) ∧
      (157286400 = 157286400 →
        (uploads (uploadTo partSize s3Accepting archive150MiB
          ((157286400 : Nat) : Int)).1).map Prod.snd = [67108864, 67108864, 23068672]) :=
  uploadTo_part_layout s3Accepting archive150MiB 157286400 rfl (fun _ _ => rfl) rfl
    (List.length_replicate _ _) (by decide)

/-- A failed `UploadPart` in the part loop ends the loop with that error, and is the last call
of the loop. -/
theorem transferLoop_upload_error (P : Nat) (s3 : S3) (size : Int) (k : Nat) (body : List Byte)
    (e : GoError) :
    ∀ (fuel pn : Nat) (reader : Body) (pm : List CompletedPart),
      Event.uploadPart k body (some e) ∈ (transferLoop P s3 size fuel pn reader pm).1 →
      (transferLoop P s3 size fuel pn reader pm).2 = LoopExit.failed e ∧
        ∃ pre, (transferLoop P s3 size fuel pn reader pm).1
            = pre ++ [Event.uploadPart k body (some e), Event.print "Unable to upload part:"] ∧
          ∀ x ∈ pre, x.isCompletion = false ∧ x.isFailedUpload = false := by
  intro fuel
  induction fuel with
  | zero => intro pn reader pm h; simp [transferLoop] at h
  | succ fuel ih =>
    intro pn reader pm
    rw [transferLoop]
    by_cases hsize : 0 < size
    · simp only [hsize, not_true_eq_false, if_false]
      split
      · intro h; simp at h
      · split
        · intro h; simp at h
        · split
          · rename_i uerr hup
            intro h
            simp only [List.mem_cons, Event.uploadPart.injEq, List.mem_singleton, reduceCtorEq,
              false_or, or_false, List.not_mem_nil] at h
            obtain ⟨hk, hb, he⟩ := h
            rw [hup] at he
            cases he
            refine ⟨rfl, [Event.readFull (ReadFull reader P).1.length (ReadFull reader P).2.1], ?_, ?_⟩
            · simp [hk, hb, hup]
            · intro x hx
              simp only [List.mem_singleton] at hx
              subst hx
              exact ⟨rfl, rfl⟩
          · rename_i hup
            intro h
            simp only [List.mem_cons, reduceCtorEq, false_or, Event.uploadPart.injEq, hup] at h
            have h' := h.resolve_left (by intro hh; exact absurd hh.2.2 (by simp))
            obtain ⟨hres, pre, hpre, hall⟩ := ih _ _ _ h'
            refine ⟨hres, Event.readFull (ReadFull reader P).1.length (ReadFull reader P).2.1 ::
              Event.uploadPart pn (ReadFull reader P).1 none :: pre, ?_, ?_⟩
            · simp [hpre, hup]
            · intro x hx
              simp only [List.mem_cons] at hx
              rcases hx with hx | hx | hx
              · subst hx; exact ⟨rfl, rfl⟩
              · subst hx; exact ⟨rfl, rfl⟩
              · exact hall x hx
    · simp only [hsize, not_false_eq_true, if_true]
      intro h; simp at h

/-- The transfer of ten bytes in parts of four bytes: three parts of 4, 4 and 2 bytes, then the
completion request with three part records. -/
theorem uploadTo_three_parts :
    uploadTo 4 s3Accepting archiveTenBytes 10 =
      ([Event.createMultipartUpload none,
        Event.readFull 4 none,
        Event.uploadPart 1 [0, 1, 2, 3] none,
        Event.readFull 4 none,
        Event.uploadPart 2 [4, 5, 6, 7] none,
        Event.readFull 2 (some GoError.ErrUnexpectedEOF),
        Event.uploadPart 3 [8, 9] none,
        Event.readFull 0 (some GoError.EOF),
        Event.print "Completing Upload.",
        Event.completeMultipartUpload
          [{ PartNumber := 1, ETag := some "etag" }, { PartNumber := 2, ETag := some "etag" },
            { PartNumber := 3, ETag := some "etag" }] none,
        Event.print "Completed upload:"], Outcome.returned none) := by
  decide

/-- The same transfer when the store refuses part 2 of 3: the error is returned, part 3 is
neither read nor uploaded, and no completion request is made. -/
theorem uploadTo_second_part_refused :
    uploadTo 4 s3RefusingSecondPart archiveTenBytes 10 =
      ([Event.createMultipartUpload none,
        Event.readFull 4 none,
        Event.uploadPart 1 [0, 1, 2, 3] none,
        Event.readFull 4 none,
        Event.uploadPart 2 [4, 5, 6, 7] (some (GoError.errorString "SlowDown")),
        Event.print "Unable to upload part:"],
        Outcome.returned (some (GoError.errorString "SlowDown"))) := by
  decide

/-- The same for the transfer from the creation of the multipart upload on. -/
theorem uploadTo_upload_error (P : Nat) (s3 : S3) (reader : Body) (size : Int) (k : Nat)
    (body : List Byte) (e : GoError)
    (h : Event.uploadPart k body (some e) ∈ (uploadTo P s3 reader size).1) :
    (uploadTo P s3 reader size).2 = Outcome.returned (some e) ∧
      ∃ pre, (uploadTo P s3 reader size).1
          = pre ++ [Event.uploadPart k body (some e), Event.print "Unable to upload part:"] ∧
        ∀ x ∈ pre, x.isCompletion = false ∧ x.isFailedUpload = false := by
  unfold uploadTo at h ⊢
  cases hc : s3.createMultipartUpload with
  | some err => simp [hc] at h
  | none =>
    simp only [hc] at h ⊢
    have key := transferLoop_upload_error P s3 size k body e (reader.data.length + 1) 1 reader []
    cases hl : (transferLoop P s3 size (reader.data.length + 1) 1 reader []).2 with
    | running =>
      simp only [hl, List.mem_cons, reduceCtorEq, false_or] at h
      have := (key h).1
      rw [hl] at this
      exact absurd this (by simp)
    | failed err =>
      simp only [hl, List.mem_cons, reduceCtorEq, false_or] at h
      obtain ⟨hres, pre, hpre, hall⟩ := key h
      rw [hl] at hres
      cases hres
      refine ⟨rfl, Event.createMultipartUpload none :: pre, by simp [hpre], ?_⟩
      intro x hx
      simp only [List.mem_cons] at hx
      rcases hx with hx | hx
      · subst hx; exact ⟨rfl, rfl⟩
      · exact hall x hx
    | finished partMap =>
      have hin : Event.uploadPart k body (some e)
          ∈ (transferLoop P s3 size (reader.data.length + 1) 1 reader []).1 := by
        simp only [hl] at h
        split at h <;> split at h <;> simpa using h
      have := (key hin).1
      rw [hl] at this
      exact absurd this (by simp)

theorem DownloadBackup_events (x : DownloadExchange) :
    ∀ ev ∈ (DownloadBackup x).1, ev.isCompletion = false ∧ ev.isUpload = false := by
  intro ev hev
  unfold DownloadBackup at hev
  dsimp only at hev
  split at hev
  · simp only [List.mem_singleton] at hev; subst hev; exact ⟨rfl, rfl⟩
  · split at hev
    · simp only [List.mem_singleton] at hev; subst hev; exact ⟨rfl, rfl⟩
    · split at hev
      · simp only [List.mem_singleton] at hev; subst hev; exact ⟨rfl, rfl⟩
      · split at hev <;>
        · simp only [List.cons_append, List.nil_append, List.mem_cons, List.mem_singleton,
            List.not_mem_nil, or_false] at hev
          rcases hev with hev | hev <;> subst hev <;> exact ⟨rfl, rfl⟩

/-- C6: in every call of `backupToS3` in which a call of `UploadPart` returns an error, the
call returns that error; the failed `UploadPart` is followed by the log line alone, so no
further part is uploaded, and no call of `CompleteMultipartUpload` is made at all. -/
theorem backupToS3_upload_error (env : Env) (k : Nat) (body : List Byte) (e : GoError)
    (h : Event.uploadPart k body (some e) ∈ (backupToS3 env).1) :
    (backupToS3 env).2 = Outcome.returned (some e) ∧
      (∀ x ∈ (backupToS3 env).1, x.isCompletion = false) ∧
      ∃ pre, (backupToS3 env).1
          = pre ++ [Event.uploadPart k body (some e), Event.print "Unable to upload part:"] ∧
        ∀ x ∈ pre, x.isFailedUpload = false := by
  have main : (backupToS3 env).2 = Outcome.returned (some e) ∧
      ∃ pre, (backupToS3 env).1
          = pre ++ [Event.uploadPart k body (some e), Event.print "Unable to upload part:"] ∧
        ∀ x ∈ pre, x.isCompletion = false ∧ x.isFailedUpload = false := by
    unfold backupToS3 at h ⊢
    cases hcfg : env.readInConfig with
    | some err => simp [hcfg] at h
    | none =>
      simp only [hcfg] at h ⊢
      have hd := DownloadBackup_events env.backup
      cases hres : (DownloadBackup env.backup).2 with
      | panicked =>
        simp only [hres, List.mem_cons, reduceCtorEq, false_or] at h
        exact absurd (hd _ h).2 (by simp [Event.isUpload])
      | failed err =>
        simp only [hres, List.mem_append, List.mem_cons, reduceCtorEq, false_or,
          List.mem_singleton, or_false, List.cons_append, List.not_mem_nil] at h
        exact absurd (hd _ h).2 (by simp [Event.isUpload])
      | ok rd size =>
        simp only [hres, List.mem_append, List.mem_cons, reduceCtorEq, false_or,
          List.cons_append] at h ⊢
        have hu : Event.uploadPart k body (some e) ∈ (uploadTo partSize env.s3 rd size).1 := by
          rcases h with h | h
          · exact absurd (hd _ h).2 (by simp [Event.isUpload])
          · exact h
        obtain ⟨hout, pre, hpre, hall⟩ := uploadTo_upload_error _ _ _ _ _ _ _ hu
        refine ⟨hout, Event.readInConfig none :: ((DownloadBackup env.backup).1 ++ pre), ?_, ?_⟩
        · simp [hpre]
        · intro x hx
          simp only [List.mem_cons, List.mem_append] at hx
          rcases hx with hx | hx | hx
          · subst hx; exact ⟨rfl, rfl⟩
          · refine ⟨(hd x hx).1, ?_⟩
            have := (hd x hx).2
            cases x <;> first | rfl | simp [Event.isUpload] at this
          · exact hall x hx
  obtain ⟨hout, pre, hpre, hall⟩ := main
  refine ⟨hout, ?_, pre, hpre, fun x hx => (hall x hx).2⟩
  intro x hx
  rw [hpre] at hx
  simp only [List.mem_append, List.mem_cons, List.mem_singleton, List.not_mem_nil, or_false] at hx
  rcases hx with hx | hx | hx
  · exact (hall x hx).1
  · subst hx; rfl
  · subst hx; rfl

theorem backupToS3_upload_error_witness :
    Event.uploadPart 1 [7] (some (GoError.errorString "SlowDown")) ∈ (backupToS3 envUploadFails).1 ∧
      ((backupToS3 envUploadFails).2 = Outcome.returned (some (GoError.errorString "SlowDown")) ∧
        (∀ x ∈ (backupToS3 envUploadFails).1, x.isCompletion = false) ∧
        ∃ pre, (backupToS3 envUploadFails).1
            = pre ++ [Event.uploadPart 1 [7] (some (GoError.errorString "SlowDown")),
              Event.print "Unable to upload part:"] ∧
          ∀ x ∈ pre, x.isFailedUpload = false) :=
  ⟨by decide, backupToS3_upload_error envUploadFails 1 [7] (GoError.errorString "SlowDown")
    (by decide)⟩

/-- The part loop looks at the declared size only in its guard: all positive sizes give the
same run. -/
theorem transferLoop_size_irrelevant (P : Nat) (s3 : S3) (size1 size2 : Int)
    (h1 : 0 < size1) (h2 : 0 < size2) :
    ∀ (fuel pn : Nat) (reader : Body) (pm : List CompletedPart),
      transferLoop P s3 size1 fuel pn reader pm = transferLoop P s3 size2 fuel pn reader pm := by
  intro fuel
  induction fuel with
  | zero => intro pn reader pm; rfl
  | succ fuel ih =>
    intro pn reader pm
    rw [transferLoop, transferLoop]
    simp only [h1, h2, not_true_eq_false, if_false, ih]

/-- With a declared size that is not positive the part loop is not entered. -/
theorem transferLoop_not_entered (P : Nat) (s3 : S3) (size : Int) (h : size ≤ 0)
    (fuel pn : Nat) (reader : Body) (pm : List CompletedPart) :
    transferLoop P s3 size (fuel + 1) pn reader pm = ([], LoopExit.finished pm) := by
  rw [transferLoop]
  simp [Int.not_lt.mpr h]

/-- C10: the declared size only decides whether the part loop is entered.  With a declared
size of 0 (which is what a missing or unparsable `Content-Length` gives) and whatever the
stream holds, nothing is read and no part is uploaded, and the multipart upload is still
created and completed once, with an empty part list; and all positive declared sizes give the
same transfer. -/
theorem uploadTo_declared_size (s3 : S3) (reader : Body)
    (hcreate : s3.createMultipartUpload = none) :
    (uploadTo partSize s3 reader 0).1 =
        [Event.createMultipartUpload none, Event.print "Completing Upload.",
          Event.completeMultipartUpload [] (s3.completeMultipartUpload []).2] ++
        (if (s3.completeMultipartUpload []).2 ≠ none then
          [Event.print "Unable to complete upload:"] else []) ++
        (if (s3.completeMultipartUpload []).1 ≠ none then
          [Event.print "Completed upload:"] else []) ∧
      (∀ x ∈ (uploadTo partSize s3 reader 0).1, x.isRead = false ∧ x.isUpload = false) ∧
      (uploadTo partSize s3 reader 0).2
        = (if (s3.completeMultipartUpload []).1 = none then Outcome.panicked
          else Outcome.returned none) ∧
      (∀ size1 size2 : Int, 0 < size1 → 0 < size2 →
        uploadTo partSize s3 reader size1 = uploadTo partSize s3 reader size2) ∧
      ParseInt [] = 0 ∧ ParseInt ['c', 'h', 'u', 'n', 'k', 'e', 'd'] = 0 := by
  have htrace : (uploadTo partSize s3 reader 0).1 =
        [Event.createMultipartUpload none, Event.print "Completing Upload.",
          Event.completeMultipartUpload [] (s3.completeMultipartUpload []).2] ++
        (if (s3.completeMultipartUpload []).2 ≠ none then
          [Event.print "Unable to complete upload:"] else []) ++
        (if (s3.completeMultipartUpload []).1 ≠ none then
          [Event.print "Completed upload:"] else []) := by
    unfold uploadTo
    simp only [hcreate, transferLoop_not_entered partSize s3 0 (Int.le_refl 0)]
    cases h1 : (s3.completeMultipartUpload []).1 <;> cases h2 : (s3.completeMultipartUpload []).2 <;>
      simp
  refine ⟨htrace, ?_, ?_, ?_, by decide, by decide⟩
  · rw [htrace]
    cases (s3.completeMultipartUpload []).1 <;> cases (s3.completeMultipartUpload []).2 <;>
      simp [Event.isRead, Event.isUpload]
  · unfold uploadTo
    simp only [hcreate, transferLoop_not_entered partSize s3 0 (Int.le_refl 0)]
    cases (s3.completeMultipartUpload []).1 <;> simp
  · intro size1 size2 h1 h2
    unfold uploadTo
    rw [transferLoop_size_irrelevant partSize s3 size1 size2 h1 h2]

theorem uploadTo_declared_size_witness :
    (uploadTo partSize s3Accepting { data := [7, 7, 7], term := GoError.EOF } 0).1 =
        [Event.createMultipartUpload none, Event.print "Completing Upload.",
          Event.completeMultipartUpload [] (s3Accepting.completeMultipartUpload []).2] ++
        (if (s3Accepting.completeMultipartUpload []).2 ≠ none then
          [Event.print "Unable to complete upload:"] else []) ++
        (if (s3Accepting.completeMultipartUpload []).1 ≠ none then
          [Event.print "Completed upload:"] else []) ∧
      (∀ x ∈ (uploadTo partSize s3Accepting { data := [7, 7, 7], term := GoError.EOF } 0).1,
        x.isRead = false ∧ x.isUpload = false) ∧
      (uploadTo partSize s3Accepting { data := [7, 7, 7], term := GoError.EOF } 0).2
        = (if (s3Accepting.completeMultipartUpload []).1 = none then Outcome.panicked
          else Outcome.returned none) ∧
      (∀ size1 size2 : Int, 0 < size1 → 0 < size2 →
        uploadTo partSize s3Accepting { data := [7, 7, 7], term := GoError.EOF } size1
          = uploadTo partSize s3Accepting { data := [7, 7, 7], term := GoError.EOF } size2) ∧
      ParseInt [] = 0 ∧ ParseInt ['c', 'h', 'u', 'n', 'k', 'e', 'd'] = 0 :=
  uploadTo_declared_size s3Accepting { data := [7, 7, 7], term := GoError.EOF } rfl

/-! ## The fuel of the model is never the reason for a result -/

theorem leadingInt_length : ∀ (s : List Char) (x v : Nat) (s1 : List Char),
    leadingInt x s = some (v, s1) → s1.length ≤ s.length := by
  intro s
  induction s with
  | nil =>
    intro x v s1 h
    simp only [leadingInt, Option.some.injEq, Prod.mk.injEq] at h
    rw [← h.2]
  | cons c s ih =>
    intro x v s1 h
    rw [leadingInt] at h
    split at h
    · split at h
      · exact absurd h (by simp)
      · dsimp only at h
        split at h
        · exact absurd h (by simp)
        · have := ih _ _ _ h
          simp only [List.length_cons]; omega
    · simp only [Option.some.injEq, Prod.mk.injEq] at h
      rw [← h.2]

theorem leadingFraction_length : ∀ (s : List Char) (x k : Nat) (o : Bool),
    (leadingFraction x k o s).2.2.length ≤ s.length := by
  intro s
  induction s with
  | nil => intro x k o; simp [leadingFraction]
  | cons c s ih =>
    intro x k o
    rw [leadingFraction]
    split
    · split
      · have := ih x k true; simp only [List.length_cons]; omega
      · split
        · have := ih x k true; simp only [List.length_cons]; omega
        · dsimp only
          split
          · have := ih x k true; simp only [List.length_cons]; omega
          · have := ih (x * 10 + (c.toNat - 48)) (k + 1) false
            simp only [List.length_cons]; omega
    · exact Nat.le_refl _

theorem fractionPart_length (s1 : List Char) : (fractionPart s1).2.2.1.length ≤ s1.length := by
  unfold fractionPart
  split
  · exact Nat.le_refl _
  · split
    · have := leadingFraction_length ‹List Char› 0 0 false
      simp only [List.length_cons]; omega
    · exact Nat.le_refl _

theorem unitPart_length (frac : Nat → Nat → Nat → Nat) (v f k : Nat) (s3 : List Char)
    (v1 : Nat) (s4 : List Char) (h : unitPart frac v f k s3 = some (v1, s4)) :
    s4.length < s3.length := by
  unfold unitPart at h
  dsimp only at h
  have hlen : (s3.takeWhile unitChar).length + (s3.dropWhile unitChar).length = s3.length := by
    rw [← List.length_append, List.takeWhile_append_dropWhile]
  split at h
  · exact absurd h (by simp)
  · rename_i hu
    have hpos : 0 < (s3.takeWhile unitChar).length := List.length_pos.mpr hu
    have hs4 : s4 = s3.dropWhile unitChar := by
      split at h
      · exact absurd h (by simp)
      · split at h
        · exact absurd h (by simp)
        · split at h
          · split at h
            · exact absurd h (by simp)
            · simp only [Option.some.injEq, Prod.mk.injEq] at h; exact h.2.symm
          · simp only [Option.some.injEq, Prod.mk.injEq] at h; exact h.2.symm
    rw [hs4]; omega

/-- Every round of `time.ParseDuration` shortens the text. -/
theorem parseTerm_length (frac : Nat → Nat → Nat → Nat) (s : List Char) (v : Nat)
    (rest : List Char) (h : parseTerm frac s = some (v, rest)) : rest.length < s.length := by
  unfold parseTerm at h
  split at h
  · exact absurd h (by simp)
  · rename_i c t
    split at h
    · exact absurd h (by simp)
    · split at h
      · exact absurd h (by simp)
      · rename_i v0 s1 hli
        dsimp only at h
        split at h
        · exact absurd h (by simp)
        · have h1 := leadingInt_length _ _ _ _ hli
          have h2 := fractionPart_length s1
          have h3 := unitPart_length _ _ _ _ _ _ _ h
          omega

/-- The fuel `len(s)` of the model of `time.ParseDuration` is never used up: any larger amount
gives the same result. -/
theorem parseTerms_fuel (frac : Nat → Nat → Nat → Nat) : ∀ (n m d : Nat) (s : List Char),
    s.length ≤ n → s.length ≤ m → parseTerms frac n d s = parseTerms frac m d s := by
  intro n
  induction n with
  | zero =>
    intro m d s hn _
    have : s = [] := List.length_eq_zero.mp (Nat.le_zero.mp hn)
    subst this
    cases m <;> rfl
  | succ n ih =>
    intro m d s hn hm
    cases s with
    | nil => cases m <;> rfl
    | cons c t =>
      cases m with
      | zero => simp at hm
      | succ m =>
        rw [parseTerms, parseTerms]
        cases hpt : parseTerm frac (c :: t) with
        | none => rfl
        | some r =>
          obtain ⟨v, rest⟩ := r
          have := parseTerm_length frac _ _ _ hpt
          dsimp only
          split
          · rfl
          · exact ih m _ rest (by omega) (by omega)

/-- The part loop ends within the fuel that `uploadTo` gives it, for a positive part size and a
stream whose end is not the error `ErrUnexpectedEOF` (which the loop takes for a short read,
again and again). -/
theorem transferLoop_ends (P : Nat) (hP : 0 < P) (s3 : S3) (size : Int) :
    ∀ (fuel pn : Nat) (reader : Body) (pm : List CompletedPart),
      reader.term ≠ GoError.ErrUnexpectedEOF → reader.data.length < fuel →
      (transferLoop P s3 size fuel pn reader pm).2 ≠ LoopExit.running := by
  intro fuel
  induction fuel with
  | zero => intro pn reader pm _ h; omega
  | succ fuel ih =>
    intro pn reader pm hterm hfuel
    rw [transferLoop]
    split
    · simp
    · dsimp only
      split
      · simp
      · split
        · simp
        · split
          · simp
          · rename_i hfatal hnotend uerr hup
            by_cases hfull : P ≤ reader.data.length
            · rw [ReadFull_full reader P hfull]
              exact ih _ _ _ hterm (by simp only [List.length_drop]; omega)
            · have hshort : reader.data.length < P := Nat.not_le.mp hfull
              rw [ReadFull_short reader P hshort]
              by_cases hnil : reader.data = []
              · exfalso
                rw [ReadFull_short reader P hshort] at hfatal hnotend
                simp only [hnil, ne_eq, not_true_eq_false, and_false, if_false,
                  List.length_nil, and_true] at hfatal hnotend
                split at hfatal
                · rename_i hcond
                  exact absurd hfatal (by simp)
                · rename_i hcond
                  simp only [ne_eq, not_and, not_not] at hcond
                  by_cases h1 : some reader.term = some GoError.ErrUnexpectedEOF
                  · exact hterm (Option.some.inj h1)
                  · exact hnotend (hcond h1)
              · have hpos : 0 < reader.data.length := List.length_pos.mpr hnil
                exact ih _ _ _ hterm (by simp only [List.length_nil]; omega)

/-! ## The daemon (C1, C3, C4, C7, C8) -/

/-- A status query whose first request fails hands back the zero status with the error. -/
theorem GetBackupStatus_transport_error (x : StatusExchange) (e : GoError)
    (h : x.lastTaskId.1 = some e) : GetBackupStatus x = (BackupStatus.zero, some e) := by
  unfold GetBackupStatus
  rcases hx : x.lastTaskId with ⟨a, b, c⟩
  rw [hx] at h
  simp only at h
  subst h
  rfl

/-- Whatever the world, a rate-limited trigger is followed by the poll loop, not by another
trigger. -/
theorem stepTrigger_rate_limited (w : World) (st : State) (v : BackupRateExceeded)
    (h : w.createBackup st.triggers = some (GoError.rateExceeded v)) :
    (stepTrigger w st).ctl = Ctl.poll ∧ (stepTrigger w st).triggers = st.triggers + 1 := by
  unfold stepTrigger
  simp [h, makeBackup, sleepFor]

/-- Whatever the world, a poll that comes back with a status other than `InProgress`, the zero
status of a failed query included, ends the poll loop. -/
theorem stepPoll_leaves_loop (w : World) (st : State)
    (h : (GetBackupStatus (w.pollStatus st.polls)).1.Status ≠ "InProgress") :
    (stepPoll w st).ctl = Ctl.transfer := by
  unfold stepPoll
  simp [h]

/-- Whatever the error of `DownloadBackup`, `backupToS3` returns nil. -/
theorem backupToS3_download_error (env : Env) (e : GoError) (hcfg : env.readInConfig = none)
    (h : (DownloadBackup env.backup).2 = DownloadResult.failed e) :
    (backupToS3 env).2 = Outcome.returned none := by
  unfold backupToS3
  simp [hcfg, h]

/-- Whatever the world, a transfer that returned nil is reported as completed and followed by
the sleep of 48 hours. -/
theorem stepTransfer_nil (w : World) (st : State)
    (h : (backupToS3 (w.transfer st.transfers)).2 = Outcome.returned none) :
    (stepTransfer w st).ctl = Ctl.trigger ∧
      (stepTransfer w st).trace = st.trace ++ Event.print "Copying backup to S3" ::
        ((backupToS3 (w.transfer st.transfers)).1 ++
          [Event.print "Backup and copy to S3 completed. Took",
            Event.print "Starting a new backup in 48 hours at:", Event.sleep (48 * Hour)]) := by
  unfold stepTransfer
  simp [h, sleepFor]

/-- Whatever the store answers, the transfer never returns an error once its part loop has
fallen out: a failed completion request ends in a panic or in the result nil. -/
theorem uploadTo_after_loop (P : Nat) (s3 : S3) (reader : Body) (size : Int)
    (parts : List CompletedPart) (hcreate : s3.createMultipartUpload = none)
    (hloop : (transferLoop P s3 size (reader.data.length + 1) 1 reader []).2
      = LoopExit.finished parts) :
    (uploadTo P s3 reader size).2
      = (if (s3.completeMultipartUpload parts).1 = none then Outcome.panicked
        else Outcome.returned none) := by
  unfold uploadTo
  simp only [hcreate, hloop]
  cases (s3.completeMultipartUpload parts).1 <;> simp

/-- C1 fails on the code: with one rate-limit result followed by a success (k = 1),
`replicate` sleeps and goes on to the poll loop; the trigger has been called once, not twice,
before the first status query. -/
theorem replicate_rate_limited_trigger_called_once :
    (step worldRateLimitedOnce (State.init 0)).ctl = Ctl.poll ∧
      (replicate worldRateLimitedOnce 2 (State.init 0)).trace =
        [Event.createBackup (some (GoError.rateExceeded { retryAt := 5400000000000 })),
          Event.print "Backup rate exceeded. Try again at:",
          Event.print "Backup rate exceeded. Retrying in",
          Event.sleep 5400000000000,
          Event.print "Waiting for backup to be ready",
          Event.tick,
          Event.print "Checking backup status",
          Event.getBackupStatus { Status := "InProgress", Progress := 0, DownloadPath := "" } none] ∧
      triggersBeforeFirstPoll (replicate worldRateLimitedOnce 2 (State.init 0)).trace = 1 ∧
      triggersBeforeFirstPoll (replicate worldRateLimitedOnce 2 (State.init 0)).trace ≠ 1 + 1 := by
  decide

/-- C3 fails on the code: a status query that fails in the transport comes back with the
zero status, whose `Status` is not `InProgress`, so the poll loop ends after this one poll and
the transfer is started next. -/
theorem replicate_failed_status_query_ends_polling :
    GetBackupStatus (worldStatusDown.pollStatus 0)
        = (BackupStatus.zero, some (GoError.errorString "connection refused")) ∧
      (replicate worldStatusDown 2 (State.init 0)).ctl = Ctl.transfer ∧
      (replicate worldStatusDown 2 (State.init 0)).polls = 1 ∧
      (replicate worldStatusDown 2 (State.init 0)).trace =
        [Event.createBackup none,
          Event.print "Waiting for backup to be ready",
          Event.tick,
          Event.print "Checking backup status",
          Event.getBackupStatus BackupStatus.zero (some (GoError.errorString "connection refused")),
          Event.print "Unable to get backup status: "] ∧
      (replicate worldStatusDown 3 (State.init 0)).polls = 1 ∧
      (replicate worldStatusDown 3 (State.init 0)).transfers = 1 := by
  decide

/-- C4 fails on the code: when the backup ends in the state `Failed`, `DownloadBackup` returns
an error, `backupToS3` logs it and returns nil, and the daemon reports the cycle as completed
and sleeps 48 hours. -/
theorem replicate_failed_job_reported_completed :
    (DownloadBackup envJobFailed.backup).2 = DownloadResult.failed (GoError.errorString "Failed") ∧
      (backupToS3 envJobFailed).2 = Outcome.returned none ∧
      (replicate worldJobFailed 3 (State.init 0)).trace =
        [Event.createBackup none,
          Event.print "Waiting for backup to be ready",
          Event.tick,
          Event.print "Checking backup status",
          Event.getBackupStatus { Status := "Failed", Progress := 0, DownloadPath := "" } none,
          Event.print "Copying backup to S3",
          Event.readInConfig none,
          Event.getBackupStatus { Status := "Failed", Progress := 0, DownloadPath := "" } none,
          Event.print "Unable to get backup: ",
          Event.print "Backup and copy to S3 completed. Took",
          Event.print "Starting a new backup in 48 hours at:",
          Event.sleep (48 * Hour)] := by
  decide

/-- C7 fails on the code: when every part is uploaded and the completion request fails,
`backupToS3` logs the failure and goes on to the line that prints the ETag of the output: it
panics when the output carries no ETag and returns nil when it carries one.  It never
returns the error. -/
theorem backupToS3_completion_failure_not_returned :
    backupToS3 envCompleteFails =
        ([Event.readInConfig none,
          Event.getBackupStatus { Status := "Success", Progress := 0, DownloadPath := "" } none,
          Event.download none,
          Event.createMultipartUpload none,
          Event.readFull 1 (some GoError.ErrUnexpectedEOF),
          Event.uploadPart 1 [7] none,
          Event.readFull 0 (some GoError.EOF),
          Event.print "Completing Upload.",
          Event.completeMultipartUpload [{ PartNumber := 1, ETag := some "etag" }]
            (some (GoError.errorString "InternalError")),
          Event.print "Unable to complete upload:"], Outcome.panicked) ∧
      (backupToS3 envCompleteFailsWithETag).2 = Outcome.returned none := by
  decide

/-- C8 as stated fails: after a transfer that returned an error the daemon has not returned;
it stands at the trigger again and its next step calls `CreateBackup` a second time. -/
theorem replicate_goes_on_after_failed_transfer :
    (backupToS3 (worldTransferFails.transfer 0)).2
        = Outcome.returned (some (GoError.errorString "AccessDenied")) ∧
      (replicate worldTransferFails 3 (State.init 0)).ctl = Ctl.trigger ∧
      (replicate worldTransferFails 3 (State.init 0)).triggers = 1 ∧
      (replicate worldTransferFails 4 (State.init 0)).triggers = 2 ∧
      (replicate worldTransferFails 4 (State.init 0)).trace =
        [Event.createBackup none,
          Event.print "Waiting for backup to be ready",
          Event.tick,
          Event.print "Checking backup status",
          Event.getBackupStatus { Status := "Success", Progress := 0, DownloadPath := "" } none,
          Event.print "Copying backup to S3",
          Event.readInConfig none,
          Event.getBackupStatus { Status := "Success", Progress := 0, DownloadPath := "" } none,
          Event.download none,
          Event.createMultipartUpload (some (GoError.errorString "AccessDenied")),
          Event.print "Unable to create multi-part upload:",
          Event.print "Unable to copy backup to S3",
          Event.createBackup none,
          Event.print "Waiting for backup to be ready"] := by
  decide

theorem step_at_trigger (w : World) (st : State) (h : st.ctl = Ctl.trigger) :
    step w st = stepTrigger w st := by
  simp [step, h]

/-- The step at the trigger calls `CreateBackup` once. -/
theorem stepTrigger_triggers (w : World) (st : State) :
    (stepTrigger w st).triggers = st.triggers + 1 := by
  unfold stepTrigger
  dsimp only
  split <;> rfl

/-- The step at the trigger appends the call of `CreateBackup` first. -/
theorem stepTrigger_trace (w : World) (st : State) :
    ∃ rest, (stepTrigger w st).trace
      = st.trace ++ Event.createBackup (w.createBackup st.triggers) :: rest := by
  unfold stepTrigger
  cases hcb : w.createBackup st.triggers with
  | none => exact ⟨[Event.print "Waiting for backup to be ready"], by simp [makeBackup]⟩
  | some err =>
    cases err with
    | rateExceeded v =>
      exact ⟨[Event.print "Backup rate exceeded. Try again at:",
        Event.print "Backup rate exceeded. Retrying in",
        Event.sleep (v.RetryIn st.clock),
        Event.print "Waiting for backup to be ready"], by simp [makeBackup, sleepFor]⟩
    | EOF =>
      exact ⟨[Event.print "Unable to create backup:", Event.print "Couldn't make a backup."],
        by simp [makeBackup]⟩
    | ErrUnexpectedEOF =>
      exact ⟨[Event.print "Unable to create backup:", Event.print "Couldn't make a backup."],
        by simp [makeBackup]⟩
    | errorString msg =>
      exact ⟨[Event.print "Unable to create backup:", Event.print "Couldn't make a backup."],
        by simp [makeBackup]⟩

/-- C8, amended: whenever the transfer step returns an error, the daemon reports it
(`Unable to copy backup to S3`), does not sleep and does not return: it stands at the trigger
again, and its next step begins with another call of `CreateBackup`. -/
theorem replicate_failed_transfer_next_cycle (w : World) (st : State) (e : GoError)
    (hctl : st.ctl = Ctl.transfer)
    (herr : (backupToS3 (w.transfer st.transfers)).2 = Outcome.returned (some e)) :
    (step w st).ctl = Ctl.trigger ∧
      (step w st).clock = st.clock ∧
      (step w st).trace = st.trace ++ Event.print "Copying backup to S3" ::
        ((backupToS3 (w.transfer st.transfers)).1 ++ [Event.print "Unable to copy backup to S3"]) ∧
      (step w (step w st)).triggers = st.triggers + 1 ∧
      ∃ rest, (step w (step w st)).trace
        = (step w st).trace ++ Event.createBackup (w.createBackup st.triggers) :: rest := by
  have h1 : step w st = { st with
      ctl := Ctl.trigger
      transfers := st.transfers + 1
      trace := st.trace ++ Event.print "Copying backup to S3" ::
        ((backupToS3 (w.transfer st.transfers)).1 ++ [Event.print "Unable to copy backup to S3"]) } := by
    simp [step, hctl, stepTransfer, herr]
  refine ⟨by rw [h1], by rw [h1], by rw [h1], ?_, ?_⟩
  · rw [step_at_trigger w (step w st) (by rw [h1]), stepTrigger_triggers, h1]
  · have ht : (step w st).ctl = Ctl.trigger := by rw [h1]
    have hn : (step w st).triggers = st.triggers := by rw [h1]
    obtain ⟨rest, hrest⟩ := stepTrigger_trace w (step w st)
    refine ⟨rest, ?_⟩
    rw [← hn, ← hrest, step_at_trigger w (step w st) ht]

theorem replicate_failed_transfer_next_cycle_witness :
    (step worldTransferFails (replicate worldTransferFails 2 (State.init 0))).ctl = Ctl.trigger ∧
      (step worldTransferFails (replicate worldTransferFails 2 (State.init 0))).clock
        = (replicate worldTransferFails 2 (State.init 0)).clock ∧
      (step worldTransferFails (replicate worldTransferFails 2 (State.init 0))).trace
        = (replicate worldTransferFails 2 (State.init 0)).trace ++
          Event.print "Copying backup to S3" ::
            ((backupToS3 (worldTransferFails.transfer
                (replicate worldTransferFails 2 (State.init 0)).transfers)).1 ++
              [Event.print "Unable to copy backup to S3"]) ∧
      (step worldTransferFails
          (step worldTransferFails (replicate worldTransferFails 2 (State.init 0)))).triggers
        = (replicate worldTransferFails 2 (State.init 0)).triggers + 1 ∧
      ∃ rest, (step worldTransferFails
          (step worldTransferFails (replicate worldTransferFails 2 (State.init 0)))).trace
        = (step worldTransferFails (replicate worldTransferFails 2 (State.init 0))).trace ++
          Event.createBackup (worldTransferFails.createBackup
            (replicate worldTransferFails 2 (State.init 0)).triggers) :: rest :=
  replicate_failed_transfer_next_cycle worldTransferFails
    (replicate worldTransferFails 2 (State.init 0)) (GoError.errorString "AccessDenied")
    (by decide) (by decide)

end JiraReplicator
